import Mathlib

/-!
Shallow embedding of `c_problems_solutions.c`.

The three tasks of `c_problems_solutions.c` and the menu of `main` as Lean functions.

* `task1` : the longest word of even length of a sentence (lines 4-44);
* `task2` : the product of a 2x3 and a 3x4 integer matrix (lines 46-70);
* `task3` : the check that a four-digit number has no repeated digit (lines 72-100);
* `main` : the choice of the task (lines 102-118).

A `char` buffer is a `List Char`; reading past its end yields the terminator, so
that a list without `NUL` is the C string made of its characters.  Writing outside
`word[100]` is undefined behaviour in C and is a `Fault` here; `pass_index` follows the
indices of the scan alone and goes on at such a write.
-/

namespace CProblems

/-! ## task1 : buffers and characters -/

/-- String terminator of C. -/
def NUL : Char := Char.ofNat 0

/-- Size of `char word[100]` and of `char longest[100]` (lines 6-7). -/
def WORD_SIZE : Nat := 100

/-- Failures of a run of the model. -/
inductive Fault where
  /-- the loop counter of the model ran out (never happens, see `scan_total`) -/
  | out_of_fuel
  /-- a write at an index outside `word[100]` -/
  | buffer_overflow
  /-- an `int` operation whose result is outside the range of `int` -/
  | signed_overflow
  deriving DecidableEq

/-- Result of a run: the value, or the fault that stopped it. -/
inductive Run (α : Type) where
  | ok (a : α)
  | fault (f : Fault)
  deriving DecidableEq

/-- Read of `sentence[i]`: the character at index `i`, the terminator past the end. -/
def sentence_at (sentence : List Char) (i : Nat) : Char :=
  sentence.getD i NUL

/-- Characters of the C string held in a buffer: those before the first terminator. -/
def c_str (sentence : List Char) : List Char :=
  sentence.takeWhile (fun c => c != NUL)

/-- `strlen(sentence)` (line 14). -/
def strlen (sentence : List Char) : Nat :=
  (c_str sentence).length

/-- Lines 14-17: a final newline is overwritten by the terminator. -/
def strip_newline (sentence : List Char) : List Char :=
  let len := strlen sentence
  if 0 < len ∧ sentence_at sentence (len - 1) = '\n' then
    sentence.set (len - 1) NUL
  else
    sentence

/-- Variables of the outer loop of task1 (lines 19-37). -/
structure ScanState where
  /-- index into `sentence` -/
  i : Nat
  /-- length of the longest even-length word so far -/
  max_len : Nat
  /-- content of the buffer `longest` -/
  longest : List Char
  deriving DecidableEq

/-- Lines 21-23: `while (sentence[i] == ' ' || sentence[i] == '\t') i++;`. -/
def skip_delims : Nat → List Char → Nat → Run Nat
  | 0, _, _ => Run.fault Fault.out_of_fuel
  | fuel + 1, sentence, i =>
    if sentence_at sentence i = ' ' ∨ sentence_at sentence i = '\t' then
      skip_delims fuel sentence (i + 1)
    else
      Run.ok i

/-- Lines 28-30: the loop that copies a word, `word[j++] = sentence[i++]`.  The
argument `word` holds the `j` characters written so far; a write needs `j < 100`. -/
def collect_word : Nat → List Char → Nat → Nat → List Char → Run (Nat × Nat × List Char)
  | 0, _, _, _, _ => Run.fault Fault.out_of_fuel
  | fuel + 1, sentence, i, j, word =>
    if sentence_at sentence i ≠ ' ' ∧ sentence_at sentence i ≠ '\t'
        ∧ sentence_at sentence i ≠ NUL then
      if j < WORD_SIZE then
        collect_word fuel sentence (i + 1) (j + 1) (word ++ [sentence_at sentence i])
      else
        Run.fault Fault.buffer_overflow
    else
      Run.ok (i, j, word)

/-- One pass of the outer loop, lines 20-37, its condition included: `none` when
the loop is left (condition false at line 20, or `break` at line 25), the next
state otherwise. -/
def scan_step (sentence : List Char) (st : ScanState) : Run (Option ScanState) :=
  if sentence_at sentence st.i = NUL then
    Run.ok none
  else
    match skip_delims (strlen sentence + 1) sentence st.i with
    | Run.fault f => Run.fault f
    | Run.ok i1 =>
      if sentence_at sentence i1 = NUL then
        Run.ok none
      else
        match collect_word (strlen sentence + 1) sentence i1 0 [] with
        | Run.fault f => Run.fault f
        | Run.ok (i2, j, word) =>
          -- line 31, word[j] = '\0'
          if j < WORD_SIZE then
            if j % 2 = 0 ∧ j > st.max_len then
              Run.ok (some { i := i2, max_len := j, longest := word })
            else
              Run.ok (some { st with i := i2 })
          else
            Run.fault Fault.buffer_overflow

/-- The outer loop, lines 20-37: the values of `max_len` and `longest` on exit. -/
def scan_loop : Nat → List Char → ScanState → Run (Nat × List Char)
  | 0, _, _ => Run.fault Fault.out_of_fuel
  | fuel + 1, sentence, st =>
    match scan_step sentence st with
    | Run.fault f => Run.fault f
    | Run.ok none => Run.ok (st.max_len, st.longest)
    | Run.ok (some st1) => scan_loop fuel sentence st1

/-- Lines 7-8 and 19-37: the scan from `i = 0`, `max_len = 0`, `longest = ""`. -/
def scan (sentence : List Char) : Run (Nat × List Char) :=
  scan_loop (strlen sentence + 1) sentence { i := 0, max_len := 0, longest := [] }

/-- Lines 19-43, the scan of task1 and its report: `some longest` when
`max_len > 0`, `none` for "No even-length word found.". -/
def longest_even_word (sentence : List Char) : Run (Option (List Char)) :=
  match scan sentence with
  | Run.fault f => Run.fault f
  | Run.ok (max_len, longest) => if max_len > 0 then Run.ok (some longest) else Run.ok none

/-- Lines 14-43: task1 on the buffer filled by `fgets`. -/
def task1 (sentence : List Char) : Run (Option (List Char)) :=
  longest_even_word (strip_newline sentence)

/-- Values of `i`, `max_len` and `longest` on entry of the loop (lines 7-8, 19). -/
def scan_init : ScanState :=
  { i := 0, max_len := 0, longest := [] }

/-- State of the outer loop after `k` passes: `some st` while the loop goes on, `none`
once it is left. -/
def scan_after (sentence : List Char) : Nat → Run (Option ScanState)
  | 0 => Run.ok (some scan_init)
  | k + 1 =>
    match scan_after sentence k with
    | Run.fault f => Run.fault f
    | Run.ok none => Run.ok none
    | Run.ok (some st) => scan_step sentence st

/-- Least value of a 32-bit `int`. -/
def INT_MIN : Int := -2147483648

/-- Greatest value of a 32-bit `int`. -/
def INT_MAX : Int := 2147483647

/-- Result of an `int` operation: overflow of a signed operation is undefined in C. -/
def int_result (x : Int) : Run Int :=
  if INT_MIN ≤ x ∧ x ≤ INT_MAX then Run.ok x else Run.fault Fault.signed_overflow

/-- Read of `m[i][j]` in a two-dimensional array. -/
def mat_at (m : List (List Int)) (i j : Nat) : Int :=
  (m.getD i []).getD j 0

/-- Write `m[i][j] = v`. -/
def mat_set (m : List (List Int)) (i j : Nat) (v : Int) : List (List Int) :=
  m.set i ((m.getD i []).set j v)

/-- Lines 55-57: `for (k = 0; k < 3; k++) C[i][j] += A[i][k] * B[k][j];`, with `n`
passes left to run from `k`. -/
def loop_k (A B : List (List Int)) (i j : Nat) :
    Nat → Nat → List (List Int) → Run (List (List Int))
  | 0, _, C => Run.ok C
  | n + 1, k, C =>
    match int_result (mat_at A i k * mat_at B k j) with
    | Run.fault f => Run.fault f
    | Run.ok p =>
      match int_result (mat_at C i j + p) with
      | Run.fault f => Run.fault f
      | Run.ok s => loop_k A B i j n (k + 1) (mat_set C i j s)

/-- Lines 53-58: `for (j = 0; j < 4; j++) { C[i][j] = 0; ... }`, with `n` passes left
to run from `j`. -/
def loop_j (A B : List (List Int)) (i : Nat) :
    Nat → Nat → List (List Int) → Run (List (List Int))
  | 0, _, C => Run.ok C
  | n + 1, j, C =>
    match loop_k A B i j 3 0 (mat_set C i j 0) with
    | Run.fault f => Run.fault f
    | Run.ok C1 => loop_j A B i n (j + 1) C1

/-- Lines 52-59: `for (i = 0; i < 2; i++) ...`, with `n` passes left to run from `i`. -/
def loop_i (A B : List (List Int)) : Nat → Nat → List (List Int) → Run (List (List Int))
  | 0, _, C => Run.ok C
  | n + 1, i, C =>
    match loop_j A B i 4 0 C with
    | Run.fault f => Run.fault f
    | Run.ok C1 => loop_i A B n (i + 1) C1

/-- Lines 52-59 on an array `C0` for `int C[2][4]`, whose initial content is not
specified by C. -/
def multiply_into (C0 A B : List (List Int)) : Run (List (List Int)) :=
  loop_i A B 2 0 C0

/-- The product computed by task2, lines 49-59. -/
def multiply (A B : List (List Int)) : Run (List (List Int)) :=
  multiply_into (List.replicate 2 (List.replicate 4 0)) A B

/-- Line 47. -/
def task2_A : List (List Int) := [[1, 2, 3], [4, 5, 6]]

/-- Line 48. -/
def task2_B : List (List Int) := [[1, 2, 3, 4], [5, 6, 7, 8], [9, 10, 11, 12]]

/-- Text of `printf("%d", x)`: the decimal digits, after a minus sign when `x < 0`. -/
def print_int (x : Int) : List Char :=
  if x < 0 then '-' :: Nat.toDigits 10 x.natAbs else Nat.toDigits 10 x.toNat

/-- Lines 63-66: `for (j = 0; j < 4; j++) { printf("%d", C[i][j]); if (j < 3) printf(" "); }`,
with `n` passes left to run from `j`; `out` is the text printed so far. -/
def print_loop_j (C : List (List Int)) (i : Nat) : Nat → Nat → List Char → List Char
  | 0, _, out => out
  | n + 1, j, out =>
    print_loop_j C i n (j + 1)
      (if j < 3 then out ++ print_int (mat_at C i j) ++ [' ']
       else out ++ print_int (mat_at C i j))

/-- Lines 62-68: `for (i = 0; i < 2; i++) { ...; if (i < 1) printf(" | "); }`, with `n`
passes left to run from `i`. -/
def print_loop_i (C : List (List Int)) : Nat → Nat → List Char → List Char
  | 0, _, out => out
  | n + 1, i, out =>
    print_loop_i C n (i + 1)
      (if i < 1 then print_loop_j C i 4 0 out ++ [' ', '|', ' ']
       else print_loop_j C i 4 0 out)

/-- Lines 62-69: the text printed for the matrix `C`, after the header. -/
def render (C : List (List Int)) : List Char :=
  print_loop_i C 2 0 [] ++ ['\n']

/-- Lines 46-70: the text printed by task2. -/
def task2 : Run (List Char) :=
  match multiply task2_A task2_B with
  | Run.fault f => Run.fault f
  | Run.ok C => Run.ok ("Resulting 2x4 matrix:\n".toList ++ render C)

/-! ## main : the menu -/

/-- What main does after reading `choice`: a call of a task, or a text printed. -/
inductive Event where
  | call_task1
  | call_task2
  | call_task3
  | print (text : String)
  deriving DecidableEq

/-- Lines 105-115 of main on the value read into `choice`: the events in order. -/
def main (choice : Int) : List Event :=
  [Event.print "1. Longest Even-Length Word\n", Event.print "2. Matrix Multiplication\n",
    Event.print "3. Validate Unique Digits\n", Event.print "Enter choice (1-3): "] ++
  (if choice = 1 then [Event.call_task1]
   else if choice = 2 then [Event.call_task2]
   else if choice = 3 then [Event.call_task3]
   else [Event.print "Invalid choice!\n"])

/-! ## task3 : four distinct digits -/

/-- What task3 prints: line 81, line 93 with the repeated digit, or line 99. -/
inductive Verdict where
  | OutOfRange
  | DuplicateDigit (v : Int)
  | Accepted
  deriving DecidableEq

/-- What a run of task3 did: the verdict printed, the array `d` once lines 85-88
have run, and the pairs `(i, j)` compared at line 92, in order. -/
structure Task3Run where
  verdict : Verdict
  digits : Option (List Int)
  compared : List (Nat × Nat)
  deriving DecidableEq

/-- Read of `d[i]`. -/
def digit_at (d : List Int) (i : Nat) : Int :=
  d.getD i 0

/-- Lines 85-88: the array `d`.  The division and remainder of C truncate. -/
def decompose (num : Int) : List Int :=
  [Int.tdiv num 1000, Int.tmod (Int.tdiv num 100) 10, Int.tmod (Int.tdiv num 10) 10,
    Int.tmod num 10]

/-- Lines 91-96: `for (j = ...; j < 4; j++)`, with `n` passes left to run from `j`:
the repeated digit if line 94 returns, and the comparisons made. -/
def dup_loop_j (d : List Int) (i : Nat) :
    Nat → Nat → List (Nat × Nat) → Option Int × List (Nat × Nat)
  | 0, _, log => (none, log)
  | n + 1, j, log =>
    if digit_at d i = digit_at d j then
      (some (digit_at d i), log ++ [(i, j)])
    else
      dup_loop_j d i n (j + 1) (log ++ [(i, j)])

/-- Lines 90-97: `for (i = 0; i < 4; i++)`, with `n` passes left to run from `i`. -/
def dup_loop_i (d : List Int) : Nat → Nat → List (Nat × Nat) → Option Int × List (Nat × Nat)
  | 0, _, log => (none, log)
  | n + 1, i, log =>
    match dup_loop_j d i (4 - (i + 1)) (i + 1) log with
    | (some v, log1) => (some v, log1)
    | (none, log1) => dup_loop_i d n (i + 1) log1

/-- Lines 80-99 of task3 on the number read at line 78. -/
def task3 (num : Int) : Task3Run :=
  if num < 1000 ∨ num > 9999 then
    { verdict := Verdict.OutOfRange, digits := none, compared := [] }
  else
    let d := decompose num
    match dup_loop_i d 4 0 [] with
    | (some v, log) => { verdict := Verdict.DuplicateDigit v, digits := some d, compared := log }
    | (none, log) => { verdict := Verdict.Accepted, digits := some d, compared := log }

/-- The function of the contract: the verdict of task3. -/
def validate_unique_digits (n : Int) : Verdict :=
  (task3 n).verdict

/-! ## Notions of the specification -/

/-- Delimiters of the specification: the space and the tab. -/
def is_delim (c : Char) : Bool :=
  c == ' ' || c == '\t'

/-- Words of a sentence: the pieces between delimiters, the empty ones left out. -/
def words (s : List Char) : List (List Char) :=
  (s.splitOnP is_delim).filter (fun w => !w.isEmpty)

/-- The accumulator of the specification after one more word: replaced by the word
when its length is even and strictly greater. -/
def keep_longer (acc : Nat × List Char) (w : List Char) : Nat × List Char :=
  if w.length % 2 = 0 ∧ w.length > acc.1 then (w.length, w) else acc

/-- Left-to-right fold of `keep_longer` over words, stopped by the first word that does
not fit in `word[100]` with its terminator. -/
def fold_words : List (List Char) → Nat × List Char → Run (Nat × List Char)
  | [], acc => Run.ok acc
  | w :: ws, acc =>
    if w.length < WORD_SIZE then fold_words ws (keep_longer acc w)
    else Run.fault Fault.buffer_overflow

/-- The value `x` is in the range of a 32-bit signed `int`. -/
@[reducible] def in_int (x : Int) : Prop :=
  INT_MIN ≤ x ∧ x ≤ INT_MAX

/-- No product and no partial sum of the cell `(i, j)` of the product leaves the range of
`int`. -/
@[reducible] def no_overflow (a b : List (List Int)) (i j : Nat) : Prop :=
  in_int (mat_at a i 0 * mat_at b 0 j) ∧ in_int (mat_at a i 1 * mat_at b 1 j) ∧
  in_int (mat_at a i 2 * mat_at b 2 j) ∧
  in_int (mat_at a i 0 * mat_at b 0 j + mat_at a i 1 * mat_at b 1 j) ∧
  in_int (mat_at a i 0 * mat_at b 0 j + mat_at a i 1 * mat_at b 1 j +
    mat_at a i 2 * mat_at b 2 j)

/-- Length of the accumulator of the native fold: `none` has length 0. -/
def acc_length (acc : Option (List Char)) : Nat :=
  match acc with
  | none => 0
  | some a => a.length

/-- The scanner as the specification abstracts it: split on the delimiters, drop the
empty pieces, fold from `none`, replacing the accumulator by a word only when the length
of the word is even and strictly greater than the length of the accumulator. -/
def native_longest_even_word (s : List Char) : Option (List Char) :=
  ((s.splitOnP is_delim).filter (fun w => !w.isEmpty)).foldl
    (fun acc w => if w.length % 2 = 0 ∧ w.length > acc_length acc then some w else acc) none

/-- Sentence made of the words `ws` separated by single spaces. -/
def join_words : List (List Char) → List Char
  | [] => []
  | [w] => w
  | w :: v :: ws => w ++ ' ' :: join_words (v :: ws)

/-- The index `i` of the scan points at the suffix `r` of the sentence held by `b`. -/
def Cursor (b : List Char) (i : Nat) (r : List Char) : Prop :=
  i ≤ strlen b ∧ r = (c_str b).drop i

/-- Decimal digits of `n`, from the most significant to the units. -/
def decimal_digits (n : Int) : List Int :=
  ((Nat.digits 10 n.toNat).reverse).map Int.ofNat

/-! ## task3 : proofs -/

theorem decompose_nat (m : Nat) :
    decompose (m : Int) = [((m / 1000 : Nat) : Int), ((m / 100 % 10 : Nat) : Int),
      ((m / 10 % 10 : Nat) : Int), ((m % 10 : Nat) : Int)] := by
  simp only [decompose, Int.ofNat_tdiv, Int.ofNat_tmod, Nat.cast_ofNat]

theorem digits_four (m : Nat) (h1 : 1000 ≤ m) (h2 : m ≤ 9999) :
    Nat.digits 10 m = [m % 10, m / 10 % 10, m / 100 % 10, m / 1000] := by
  rw [Nat.digits_def' (by norm_num) (by omega), Nat.digits_def' (by norm_num) (by omega),
    Nat.digits_def' (by norm_num) (by omega), Nat.digits_of_lt 10 _ (by omega) (by omega)]
  have e1 : m / 10 / 10 = m / 100 := by omega
  have e2 : m / 10 / 10 / 10 = m / 1000 := by omega
  rw [e2, e1]

theorem decompose_eq_decimal_digits (n : Int) (h1 : 1000 ≤ n) (h2 : n ≤ 9999) :
    decompose n = decimal_digits n := by
  obtain ⟨m, rfl⟩ := Int.eq_ofNat_of_zero_le (by omega : 0 ≤ n)
  have hm1 : 1000 ≤ m := by omega
  have hm2 : m ≤ 9999 := by omega
  rw [decompose_nat, decimal_digits, Int.toNat_ofNat, digits_four m hm1 hm2]
  rfl

theorem dup_loop_four (a b c e : Int) :
    (dup_loop_i [a, b, c, e] 4 0 []).1 =
      (if a = b then some a else if a = c then some a else if a = e then some a
      else if b = c then some b else if b = e then some b else if c = e then some c
      else none : Option Int) := by
  simp only [dup_loop_i, dup_loop_j, digit_at, List.getD_cons_zero, List.getD_cons_succ]
  by_cases h1 : a = b
  · simp only [if_pos h1]
  by_cases h2 : a = c
  · simp only [if_neg h1, if_pos h2]
  by_cases h3 : a = e
  · simp only [if_neg h1, if_neg h2, if_pos h3]
  by_cases h4 : b = c
  · simp only [if_neg h1, if_neg h2, if_neg h3, if_pos h4]
  by_cases h5 : b = e
  · simp only [if_neg h1, if_neg h2, if_neg h3, if_neg h4, if_pos h5]
  by_cases h6 : c = e
  · simp only [if_neg h1, if_neg h2, if_neg h3, if_neg h4, if_neg h5, if_pos h6]
  · simp only [if_neg h1, if_neg h2, if_neg h3, if_neg h4, if_neg h5, if_neg h6]

theorem verdict_in_range (n : Int) (h1 : 1000 ≤ n) (h2 : n ≤ 9999) :
    validate_unique_digits n =
      match (dup_loop_i (decompose n) 4 0 []).1 with
      | some v => Verdict.DuplicateDigit v
      | none => Verdict.Accepted := by
  have h : ¬ (n < 1000 ∨ n > 9999) := by omega
  simp only [validate_unique_digits, task3, if_neg h]
  rcases hr : dup_loop_i (decompose n) 4 0 [] with ⟨_ | v, log⟩ <;> simp

theorem verdict_four (n : Int) (h1 : 1000 ≤ n) (h2 : n ≤ 9999) :
    ∃ a b c e : Int, decimal_digits n = [a, b, c, e] ∧
      validate_unique_digits n =
        if a = b then Verdict.DuplicateDigit a else if a = c then Verdict.DuplicateDigit a
        else if a = e then Verdict.DuplicateDigit a else if b = c then Verdict.DuplicateDigit b
        else if b = e then Verdict.DuplicateDigit b else if c = e then Verdict.DuplicateDigit c
        else Verdict.Accepted := by
  refine ⟨_, _, _, _, (decompose_eq_decimal_digits n h1 h2).symm, ?_⟩
  rw [verdict_in_range n h1 h2]
  simp only [decompose, dup_loop_four]
  split_ifs <;> rfl

/-- C2: `validate_unique_digits n` is `Accepted` exactly when `1000 <= n <= 9999` and the
decimal digits of `n` are pairwise distinct; `1234` is accepted. -/
theorem validate_accepted_iff :
    (∀ n : Int, validate_unique_digits n = Verdict.Accepted ↔
      1000 ≤ n ∧ n ≤ 9999 ∧ (decimal_digits n).Nodup) ∧
    validate_unique_digits 1234 = Verdict.Accepted := by
  refine ⟨?_, by decide⟩
  intro n
  by_cases h : n < 1000 ∨ n > 9999
  · have hv : validate_unique_digits n = Verdict.OutOfRange := by
      simp [validate_unique_digits, task3, if_pos h]
    rw [hv]
    constructor
    · intro hc; cases hc
    · intro hc; omega
  · have h1 : 1000 ≤ n := by omega
    have h2 : n ≤ 9999 := by omega
    obtain ⟨a, b, c, e, hd, hv⟩ := verdict_four n h1 h2
    rw [hv, hd]
    simp only [h1, h2, true_and, List.nodup_cons, List.mem_cons, List.mem_singleton,
      List.not_mem_nil, not_or, List.nodup_nil, or_false, not_false_eq_true, and_true]
    split_ifs <;> simp_all

/-- C3: for `n` in `[1000, 9999]` with a repeated digit, `validate_unique_digits n` is
`DuplicateDigit (d[i])` for the first pair `i < j <= 3` in the order of the two loops
(`i` then `j`) with `d[i] = d[j]`, where `d` is the list of the decimal digits of `n`; that
digit occurs at least twice in `d`. -/
theorem validate_duplicate_first_pair (n : Int) (h1 : 1000 ≤ n) (h2 : n ≤ 9999)
    (hdup : ¬ (decimal_digits n).Nodup) :
    ∃ i j : Nat, i < j ∧ j ≤ 3 ∧
      (decimal_digits n).getD i 0 = (decimal_digits n).getD j 0 ∧
      validate_unique_digits n = Verdict.DuplicateDigit ((decimal_digits n).getD i 0) ∧
      (∀ i1 j1 : Nat, i1 < j1 → j1 ≤ 3 → (i1 < i ∨ (i1 = i ∧ j1 < j)) →
        (decimal_digits n).getD i1 0 ≠ (decimal_digits n).getD j1 0) ∧
      2 ≤ (decimal_digits n).count ((decimal_digits n).getD i 0) := by
  obtain ⟨a, b, c, e, hd, hv⟩ := verdict_four n h1 h2
  rw [hv, hd]
  rw [hd] at hdup
  by_cases e1 : a = b
  · refine ⟨0, 1, by omega, by omega, by simpa using e1, by simp [e1], ?_, by simp [e1]⟩
    intro i1 j1 hlt hle hlex; omega
  by_cases e2 : a = c
  · refine ⟨0, 2, by omega, by omega, by simpa using e2, by simp [e1, e2], ?_, ?_⟩
    · intro i1 j1 hlt hle hlex
      have hi : i1 = 0 := by omega
      have hj : j1 = 1 := by omega
      subst hi hj; simpa using e1
    · subst e2; simp [List.count_cons]; omega
  by_cases e3 : a = e
  · refine ⟨0, 3, by omega, by omega, by simpa using e3, by simp [e1, e2, e3], ?_, ?_⟩
    · intro i1 j1 hlt hle hlex
      have hi : i1 = 0 := by omega
      subst hi
      interval_cases j1 <;> first | omega | simpa using e1 | simpa using e2
    · subst e3; simp [List.count_cons]; omega
  by_cases e4 : b = c
  · refine ⟨1, 2, by omega, by omega, by simpa using e4, by simp [e1, e2, e3, e4], ?_, ?_⟩
    · intro i1 j1 hlt hle hlex
      have hi : i1 ≤ 1 := by omega
      interval_cases i1 <;> interval_cases j1 <;>
        first | omega | simpa using e1 | simpa using e2 | simpa using e3
    · subst e4; simp [List.count_cons]; omega
  by_cases e5 : b = e
  · refine ⟨1, 3, by omega, by omega, by simpa using e5, by simp [e1, e2, e3, e4, e5], ?_, ?_⟩
    · intro i1 j1 hlt hle hlex
      have hi : i1 ≤ 1 := by omega
      interval_cases i1 <;> interval_cases j1 <;>
        first | omega | simpa using e1 | simpa using e2 | simpa using e3 | simpa using e4
    · subst e5; simp [List.count_cons]; omega
  by_cases e6 : c = e
  · refine ⟨2, 3, by omega, by omega, by simpa using e6,
      by simp [e1, e2, e3, e4, e5, e6], ?_, ?_⟩
    · intro i1 j1 hlt hle hlex
      have hi : i1 ≤ 2 := by omega
      interval_cases i1 <;> interval_cases j1 <;>
        first
        | omega
        | simpa using e1
        | simpa using e2
        | simpa using e3
        | simpa using e4
        | simpa using e5
    · subst e6; simp [List.count_cons]; omega
  · exfalso
    apply hdup
    simp [e1, e2, e3, e4, e5, e6]

/-- Instance of C3: `1123` gives `DuplicateDigit 1` and `1000` gives `DuplicateDigit 0`. -/
theorem validate_duplicate_first_pair_witness :
    validate_unique_digits 1123 = Verdict.DuplicateDigit 1 ∧
    validate_unique_digits 1000 = Verdict.DuplicateDigit 0 ∧
    ∃ i j : Nat, i < j ∧ j ≤ 3 ∧
      (decimal_digits 1123).getD i 0 = (decimal_digits 1123).getD j 0 ∧
      validate_unique_digits 1123 = Verdict.DuplicateDigit ((decimal_digits 1123).getD i 0) ∧
      (∀ i1 j1 : Nat, i1 < j1 → j1 ≤ 3 → (i1 < i ∨ (i1 = i ∧ j1 < j)) →
        (decimal_digits 1123).getD i1 0 ≠ (decimal_digits 1123).getD j1 0) ∧
      2 ≤ (decimal_digits 1123).count ((decimal_digits 1123).getD i 0) :=
  ⟨by decide, by decide,
    validate_duplicate_first_pair 1123 (by decide) (by decide) (by simp [decimal_digits])⟩

/-- C5: `validate_unique_digits n` is `OutOfRange` exactly when `n < 1000` or `n > 9999`, and
then task3 has returned before the decomposition (the array `d` is not filled) and before
any comparison of two digits. -/
theorem validate_out_of_range_iff (n : Int) :
    (validate_unique_digits n = Verdict.OutOfRange ↔ n < 1000 ∨ n > 9999) ∧
    (validate_unique_digits n = Verdict.OutOfRange →
      (task3 n).digits = none ∧ (task3 n).compared = []) := by
  by_cases h : n < 1000 ∨ n > 9999
  · have hv : task3 n = { verdict := Verdict.OutOfRange, digits := none, compared := [] } := by
      simp [task3, if_pos h]
    simp [validate_unique_digits, hv, h]
  · have h1 : 1000 ≤ n := by omega
    have h2 : n ≤ 9999 := by omega
    obtain ⟨a, b, c, e, -, hv⟩ := verdict_four n h1 h2
    have hne : validate_unique_digits n ≠ Verdict.OutOfRange := by
      rw [hv]; split_ifs <;> simp
    simp [hne, h]

/-- C4: the product of the two matrices of task2 is `[[38,44,50,56],[83,98,113,128]]`. -/
theorem multiply_reference :
    multiply task2_A task2_B = Run.ok [[38, 44, 50, 56], [83, 98, 113, 128]] := by
  decide

/-! ## task1 : proofs -/

theorem mem_c_str_ne_NUL (b : List Char) (c : Char) (h : c ∈ c_str b) : c ≠ NUL := by
  have := List.mem_takeWhile_imp h
  simpa using this

theorem c_str_of_not_mem (s : List Char) (h : NUL ∉ s) : c_str s = s := by
  unfold c_str
  rw [List.takeWhile_eq_self_iff]
  intro c hc
  have : c ≠ NUL := fun e => h (e ▸ hc)
  simpa using this

theorem sentence_at_drop (b : List Char) (i : Nat) (h : i ≤ strlen b) :
    sentence_at b i = ((c_str b).drop i).headD NUL := by
  induction b generalizing i with
  | nil => simp [sentence_at, c_str]
  | cons c cs ih =>
    by_cases hc : c = NUL
    · have h0 : strlen (c :: cs) = 0 := by simp [strlen, c_str, hc]
      have hi : i = 0 := by omega
      subst hi
      simp [sentence_at, c_str, hc]
    · have hcs : c_str (c :: cs) = c :: c_str cs := by simp [c_str, hc]
      cases i with
      | zero => simp [sentence_at, hcs]
      | succ k =>
        have hk : k ≤ strlen cs := by
          simp only [strlen, hcs, List.length_cons] at h
          simpa [strlen] using h
        have := ih k hk
        simpa [sentence_at, hcs] using this

theorem cursor_start (b : List Char) : Cursor b 0 (c_str b) :=
  ⟨Nat.zero_le _, rfl⟩

theorem cursor_length {b : List Char} {i : Nat} {r : List Char} (h : Cursor b i r) :
    r.length + i = strlen b := by
  obtain ⟨h1, rfl⟩ := h
  simp only [List.length_drop, strlen] at *
  omega

theorem cursor_at_nil {b : List Char} {i : Nat} (h : Cursor b i []) :
    sentence_at b i = NUL := by
  rw [sentence_at_drop b i h.1, ← h.2]; rfl

theorem cursor_at_cons {b : List Char} {i : Nat} {c : Char} {r : List Char}
    (h : Cursor b i (c :: r)) : sentence_at b i = c ∧ c ≠ NUL ∧ Cursor b (i + 1) r := by
  have hl := cursor_length h
  refine ⟨?_, ?_, ?_, ?_⟩
  · rw [sentence_at_drop b i h.1, ← h.2]; rfl
  · apply mem_c_str_ne_NUL b
    have : c ∈ (c_str b).drop i := by rw [← h.2]; exact List.mem_cons_self _ _
    exact List.mem_of_mem_drop this
  · simp only [List.length_cons] at hl; omega
  · rw [← List.tail_drop, ← h.2]; rfl

theorem cursor_advance {b : List Char} {i : Nat} (w r : List Char)
    (h : Cursor b i (w ++ r)) : Cursor b (i + w.length) r := by
  induction w generalizing i with
  | nil => simpa using h
  | cons c w ih =>
    have h1 := (cursor_at_cons (by simpa using h)).2.2
    have := ih h1
    simpa [Nat.add_assoc, Nat.add_comm 1] using this

theorem is_delim_iff (c : Char) : is_delim c = true ↔ c = ' ' ∨ c = '\t' := by
  simp [is_delim]

theorem skip_delims_eq (fuel : Nat) (b : List Char) (i : Nat) (r : List Char)
    (h : Cursor b i r) (hf : r.length < fuel) :
    skip_delims fuel b i = Run.ok (i + (r.takeWhile is_delim).length) := by
  induction fuel generalizing i r with
  | zero => omega
  | succ fuel ih =>
    cases r with
    | nil =>
      have h0 := cursor_at_nil h
      have hn : ¬ (NUL = ' ' ∨ NUL = '\t') := by decide
      simp [skip_delims, h0, hn]
    | cons c r =>
      obtain ⟨hc, -, hnext⟩ := cursor_at_cons h
      by_cases hd : is_delim c = true
      · have hd1 := (is_delim_iff c).1 hd
        have := ih (i + 1) r hnext (by simpa using hf)
        simp only [skip_delims, hc, if_pos hd1, this, List.takeWhile_cons, hd, if_true,
          List.length_cons]
        congr 1; omega
      · have hd1 : ¬ (c = ' ' ∨ c = '\t') := fun e => hd ((is_delim_iff c).2 e)
        simp [skip_delims, hc, hd1, List.takeWhile_cons, hd]

theorem collect_word_eq (fuel : Nat) (b : List Char) (i j : Nat) (word r : List Char)
    (h : Cursor b i r) (hf : r.length < fuel) (hj : j ≤ WORD_SIZE) :
    collect_word fuel b i j word =
      if j + (r.takeWhile (fun c => !is_delim c)).length ≤ WORD_SIZE then
        Run.ok (i + (r.takeWhile (fun c => !is_delim c)).length,
          j + (r.takeWhile (fun c => !is_delim c)).length,
          word ++ r.takeWhile (fun c => !is_delim c))
      else Run.fault Fault.buffer_overflow := by
  induction fuel generalizing i j word r with
  | zero => omega
  | succ fuel ih =>
    cases r with
    | nil =>
      have h0 := cursor_at_nil h
      simp [collect_word, h0, hj]
    | cons c r =>
      obtain ⟨hc, hnul, hnext⟩ := cursor_at_cons h
      by_cases hd : is_delim c = true
      · have hd1 := (is_delim_iff c).1 hd
        have hcond : ¬ (c ≠ ' ' ∧ c ≠ '\t' ∧ c ≠ NUL) := by
          intro hx; rcases hd1 with e | e
          · exact hx.1 e
          · exact hx.2.1 e
        simp [collect_word, hc, hcond, List.takeWhile_cons, hd, hj]
      · have hd1 : ¬ (c = ' ' ∨ c = '\t') := fun e => hd ((is_delim_iff c).2 e)
        have hcond : c ≠ ' ' ∧ c ≠ '\t' ∧ c ≠ NUL :=
          ⟨fun e => hd1 (Or.inl e), fun e => hd1 (Or.inr e), hnul⟩
        have hd2 : (!is_delim c) = true := by simpa using hd
        simp only [collect_word, hc, if_pos hcond, List.takeWhile_cons, hd2, if_true,
          List.length_cons]
        by_cases hjw : j < WORD_SIZE
        · rw [if_pos hjw, ih (i + 1) (j + 1) (word ++ [c]) r hnext (by simpa using hf) hjw]
          simp only [Nat.add_assoc, Nat.add_comm 1, List.append_assoc, List.singleton_append]
        · rw [if_neg hjw, if_neg (by omega)]

theorem words_nil : words [] = [] := by
  simp [words]

theorem words_cons_delim (c : Char) (cs : List Char) (h : is_delim c = true) :
    words (c :: cs) = words cs := by
  simp [words, List.splitOnP_cons, h]

theorem words_dropWhile (r : List Char) : words (r.dropWhile is_delim) = words r := by
  induction r with
  | nil => rfl
  | cons c cs ih =>
    by_cases h : is_delim c = true
    · rw [List.dropWhile_cons_of_pos h, ih, words_cons_delim c cs h]
    · rw [List.dropWhile_cons_of_neg h]

theorem words_single (w : List Char) (hw : w ≠ []) (hnd : ∀ c ∈ w, is_delim c = false) :
    words w = [w] := by
  have h1 : w.splitOnP is_delim = [w] :=
    List.splitOnP_eq_single is_delim w (fun x hx => by simp [hnd x hx])
  cases w with
  | nil => exact absurd rfl hw
  | cons c cs =>
    unfold words
    rw [h1]
    simp

theorem words_append_delim (w : List Char) (d : Char) (cs : List Char) (hw : w ≠ [])
    (hnd : ∀ c ∈ w, is_delim c = false) (hd : is_delim d = true) :
    words (w ++ d :: cs) = w :: words cs := by
  have h1 : (w ++ d :: cs).splitOnP is_delim = w :: cs.splitOnP is_delim :=
    List.splitOnP_first is_delim w (fun x hx => by simp [hnd x hx]) d hd cs
  cases w with
  | nil => exact absurd rfl hw
  | cons c w =>
    unfold words
    rw [h1]
    simp

theorem words_take_drop (r : List Char) (c : Char) (cs : List Char) (hr : r = c :: cs)
    (hc : is_delim c = false) :
    words r = r.takeWhile (fun x => !is_delim x) :: words (r.dropWhile (fun x => !is_delim x)) := by
  have hsplit := List.takeWhile_append_dropWhile (fun x => !is_delim x) r
  have hw : r.takeWhile (fun x => !is_delim x) ≠ [] := by
    subst hr; simp [List.takeWhile_cons, hc]
  have hnd : ∀ x ∈ r.takeWhile (fun x => !is_delim x), is_delim x = false := by
    intro x hx
    have := List.mem_takeWhile_imp hx
    simpa using this
  cases hrest : r.dropWhile (fun x => !is_delim x) with
  | nil =>
    rw [hrest, List.append_nil] at hsplit
    rw [words_nil, hsplit]
    exact words_single r (hsplit ▸ hw) (hsplit ▸ hnd)
  | cons d rest =>
    have hd : is_delim d = true := by
      have := List.head_dropWhile_not (fun x => !is_delim x) r (by rw [hrest]; simp)
      simpa [hrest] using this
    rw [hrest] at hsplit
    conv_lhs => rw [← hsplit]
    rw [words_append_delim _ d rest hw hnd hd, words_cons_delim d rest hd]

theorem scan_step_eq (b : List Char) (st : ScanState) (r : List Char)
    (h : Cursor b st.i r) :
    scan_step b st =
      if r.dropWhile is_delim = [] then Run.ok none
      else if ((r.dropWhile is_delim).takeWhile (fun x => !is_delim x)).length < WORD_SIZE then
        Run.ok (some
          { i := st.i + (r.takeWhile is_delim).length +
              ((r.dropWhile is_delim).takeWhile (fun x => !is_delim x)).length
            max_len := (keep_longer (st.max_len, st.longest)
              ((r.dropWhile is_delim).takeWhile (fun x => !is_delim x))).1
            longest := (keep_longer (st.max_len, st.longest)
              ((r.dropWhile is_delim).takeWhile (fun x => !is_delim x))).2 })
      else Run.fault Fault.buffer_overflow := by
  have hfuel : r.length < strlen b + 1 := by have := cursor_length h; omega
  cases r with
  | nil =>
    have h0 := cursor_at_nil h
    simp [scan_step, h0]
  | cons c r =>
    obtain ⟨hc, hnul, -⟩ := cursor_at_cons h
    have hskip := skip_delims_eq (strlen b + 1) b st.i (c :: r) h hfuel
    have hcur1 : Cursor b (st.i + ((c :: r).takeWhile is_delim).length)
        ((c :: r).dropWhile is_delim) :=
      cursor_advance _ _ (by rw [List.takeWhile_append_dropWhile]; exact h)
    have hlen1 : ((c :: r).dropWhile is_delim).length < strlen b + 1 := by
      have := cursor_length hcur1; omega
    simp only [scan_step, hc, if_neg hnul, hskip]
    generalize hr1 : (c :: r).dropWhile is_delim = r1 at hcur1 hlen1 ⊢
    generalize st.i + ((c :: r).takeWhile is_delim).length = i1 at hcur1 ⊢
    cases r1 with
    | nil =>
      have h0 := cursor_at_nil hcur1
      simp [h0]
    | cons c1 r1 =>
      obtain ⟨hc1, hnul1, -⟩ := cursor_at_cons hcur1
      have hcol := collect_word_eq (strlen b + 1) b i1 0 [] (c1 :: r1) hcur1 hlen1
        (Nat.zero_le _)
      simp only [hc1, if_neg hnul1, hcol, Nat.zero_add, List.nil_append]
      generalize ((c1 :: r1).takeWhile (fun x => !is_delim x)) = w
      have hne : (c1 :: r1) ≠ [] := List.cons_ne_nil _ _
      simp only [if_neg hne]
      by_cases hw : w.length < WORD_SIZE
      · have hw1 : w.length ≤ WORD_SIZE := Nat.le_of_lt hw
        simp only [if_pos hw1, if_pos hw, keep_longer]
        split_ifs <;> rfl
      · by_cases hw1 : w.length ≤ WORD_SIZE
        · simp only [if_pos hw1, if_neg hw]
        · simp only [if_neg hw1, if_neg hw]

theorem scan_loop_eq (fuel : Nat) (b : List Char) (st : ScanState) (r : List Char)
    (h : Cursor b st.i r) (hf : r.length < fuel) :
    scan_loop fuel b st = fold_words (words r) (st.max_len, st.longest) := by
  induction fuel generalizing st r with
  | zero => omega
  | succ fuel ih =>
    rw [scan_loop, scan_step_eq b st r h, ← words_dropWhile r]
    have hcur1 : Cursor b (st.i + (r.takeWhile is_delim).length) (r.dropWhile is_delim) :=
      cursor_advance _ _ (by rw [List.takeWhile_append_dropWhile]; exact h)
    have hlen1 : (r.dropWhile is_delim).length ≤ r.length :=
      (List.dropWhile_sublist _).length_le
    have hhead : ∀ c1 r2, r.dropWhile is_delim = c1 :: r2 → is_delim c1 = false := by
      intro c1 r2 e
      have := List.head_dropWhile_not is_delim r (by rw [e]; simp)
      simpa [e] using this
    generalize r.dropWhile is_delim = r1 at hcur1 hlen1 hhead ⊢
    generalize st.i + (r.takeWhile is_delim).length = i1 at hcur1 ⊢
    cases r1 with
    | nil => simp [words_nil, fold_words]
    | cons c1 r2 =>
      have hc1 : is_delim c1 = false := hhead c1 r2 rfl
      rw [words_take_drop (c1 :: r2) c1 r2 rfl hc1, fold_words]
      have hsplit := List.takeWhile_append_dropWhile (fun x => !is_delim x) (c1 :: r2)
      have hwpos : 0 < ((c1 :: r2).takeWhile (fun x => !is_delim x)).length := by
        simp [List.takeWhile_cons, hc1]
      have hcur2 := cursor_advance _ _ (by rw [hsplit]; exact hcur1)
      have hlen2 : ((c1 :: r2).takeWhile (fun x => !is_delim x)).length +
          ((c1 :: r2).dropWhile (fun x => !is_delim x)).length = (c1 :: r2).length := by
        rw [← List.length_append, hsplit]
      generalize (c1 :: r2).takeWhile (fun x => !is_delim x) = w at hwpos hcur2 hlen2 ⊢
      generalize (c1 :: r2).dropWhile (fun x => !is_delim x) = r3 at hcur2 hlen2 ⊢
      simp only [if_neg (List.cons_ne_nil c1 r2)]
      by_cases hw : w.length < WORD_SIZE
      · simp only [if_pos hw]
        exact ih _ r3 hcur2 (by omega)
      · simp only [if_neg hw]

theorem scan_eq (b : List Char) : scan b = fold_words (words (c_str b)) (0, []) :=
  scan_loop_eq (strlen b + 1) b _ (c_str b) (cursor_start b) (by simp [strlen])

theorem longest_even_word_eq (b : List Char) :
    longest_even_word b =
      match fold_words (words (c_str b)) (0, []) with
      | Run.fault f => Run.fault f
      | Run.ok (max_len, longest) =>
        if max_len > 0 then Run.ok (some longest) else Run.ok none := by
  rw [longest_even_word, scan_eq]

theorem fold_words_bounded (ws : List (List Char)) (acc : Nat × List Char)
    (hb : ∀ w ∈ ws, w.length ≤ 99) : fold_words ws acc = Run.ok (ws.foldl keep_longer acc) := by
  induction ws generalizing acc with
  | nil => rfl
  | cons w ws ih =>
    have hw : w.length < WORD_SIZE := by
      have := hb w (List.mem_cons_self _ _)
      simp only [WORD_SIZE]; omega
    rw [fold_words, if_pos hw, List.foldl_cons]
    exact ih _ (fun v hv => hb v (List.mem_cons_of_mem _ hv))

theorem foldl_keep_longer_spec (ws : List (List Char)) (m0 : Nat) (l0 : List Char) :
    (ws.foldl keep_longer (m0, l0) = (m0, l0) ∧ ∀ w ∈ ws, w.length % 2 = 0 → w.length ≤ m0) ∨
    (∃ pre post, ws = pre ++ (ws.foldl keep_longer (m0, l0)).2 :: post ∧
      (ws.foldl keep_longer (m0, l0)).1 = (ws.foldl keep_longer (m0, l0)).2.length ∧
      (ws.foldl keep_longer (m0, l0)).2.length % 2 = 0 ∧
      m0 < (ws.foldl keep_longer (m0, l0)).2.length ∧
      (∀ v ∈ pre, v.length % 2 = 0 → v.length < (ws.foldl keep_longer (m0, l0)).2.length) ∧
      (∀ v ∈ post, v.length % 2 = 0 → v.length ≤ (ws.foldl keep_longer (m0, l0)).2.length)) := by
  induction ws generalizing m0 l0 with
  | nil => left; simp
  | cons w ws ih =>
    rw [List.foldl_cons]
    by_cases hk : w.length % 2 = 0 ∧ w.length > m0
    · have hkl : keep_longer (m0, l0) w = (w.length, w) := by simp [keep_longer, hk]
      rw [hkl]
      right
      rcases ih w.length w with ⟨he, hall⟩ | ⟨pre, post, hws, h1, h2, h3, h4, h5⟩
      · refine ⟨[], ws, ?_, ?_, ?_, ?_, ?_, ?_⟩ <;> simp [he, hk.1, hk.2]
        exact hall
      · refine ⟨w :: pre, post, ?_, h1, h2, by omega, ?_, h5⟩
        · rw [List.cons_append, ← hws]
        · intro v hv hev
          rcases List.mem_cons.1 hv with rfl | hv
          · exact h3
          · exact h4 v hv hev
    · have hkl : keep_longer (m0, l0) w = (m0, l0) := by simp [keep_longer, hk]
      rw [hkl]
      rcases ih m0 l0 with ⟨he, hall⟩ | ⟨pre, post, hws, h1, h2, h3, h4, h5⟩
      · left
        refine ⟨he, ?_⟩
        intro v hv hev
        rcases List.mem_cons.1 hv with rfl | hv
        · by_contra hlt; exact hk ⟨hev, by omega⟩
        · exact hall v hv hev
      · right
        refine ⟨w :: pre, post, ?_, h1, h2, h3, ?_, h5⟩
        · rw [List.cons_append, ← hws]
        · intro v hv hev
          rcases List.mem_cons.1 hv with rfl | hv
          · by_contra hlt; exact hk ⟨hev, by omega⟩
          · exact h4 v hv hev

theorem words_ne_nil (s w : List Char) (h : w ∈ words s) : w ≠ [] := by
  have := (List.mem_filter.1 h).2
  intro e; subst e; simp at this

theorem scan_result_bounded (b : List Char) (hb : ∀ w ∈ words (c_str b), w.length ≤ 99) :
    longest_even_word b =
      if ((words (c_str b)).foldl keep_longer (0, [])).1 > 0 then
        Run.ok (some ((words (c_str b)).foldl keep_longer (0, [])).2)
      else Run.ok none := by
  rw [longest_even_word_eq, fold_words_bounded _ _ hb]

theorem words_all_delim (r : List Char) (h : ∀ c ∈ r, c = ' ' ∨ c = '\t') : words r = [] := by
  induction r with
  | nil => exact words_nil
  | cons c cs ih =>
    rw [words_cons_delim c cs ((is_delim_iff c).2 (h c (List.mem_cons_self _ _)))]
    exact ih (fun x hx => h x (List.mem_cons_of_mem _ hx))

theorem words_append_left (pre x : List Char) (h : ∀ c ∈ pre, c = ' ' ∨ c = '\t') :
    words (pre ++ x) = words x := by
  induction pre with
  | nil => rfl
  | cons c cs ih =>
    rw [List.cons_append, words_cons_delim c _ ((is_delim_iff c).2 (h c (List.mem_cons_self _ _)))]
    exact ih (fun y hy => h y (List.mem_cons_of_mem _ hy))

theorem not_delim_of_ne (c : Char) (h : c ≠ ' ' ∧ c ≠ '\t') : is_delim c = false := by
  cases hd : is_delim c with
  | false => rfl
  | true =>
    rcases (is_delim_iff c).1 hd with e | e
    · exact absurd e h.1
    · exact absurd e h.2

theorem words_word_append (w post : List Char) (hw : w ≠ [])
    (hnd : ∀ c ∈ w, c ≠ ' ' ∧ c ≠ '\t') (hpost : ∀ c ∈ post, c = ' ' ∨ c = '\t') :
    words (w ++ post) = [w] := by
  have hnd1 : ∀ c ∈ w, is_delim c = false := fun c hc => not_delim_of_ne c (hnd c hc)
  cases post with
  | nil => rw [List.append_nil]; exact words_single w hw hnd1
  | cons d post =>
    rw [words_append_delim w d post hw hnd1 ((is_delim_iff d).2 (hpost d (List.mem_cons_self _ _))),
      words_all_delim post (fun x hx => hpost x (List.mem_cons_of_mem _ hx))]

theorem words_join_words (ws : List (List Char))
    (hws : ∀ w ∈ ws, w ≠ [] ∧ ∀ c ∈ w, c ≠ ' ' ∧ c ≠ '\t') : words (join_words ws) = ws := by
  induction ws with
  | nil => exact words_nil
  | cons w ws ih =>
    obtain ⟨hw, hnd⟩ := hws w (List.mem_cons_self _ _)
    have hnd1 : ∀ c ∈ w, is_delim c = false := fun c hc => not_delim_of_ne c (hnd c hc)
    cases ws with
    | nil => exact words_single w hw hnd1
    | cons v ws =>
      rw [join_words, words_append_delim w ' ' _ hw hnd1 (by decide),
        ih (fun x hx => hws x (List.mem_cons_of_mem _ hx))]

theorem not_mem_join_words (ws : List (List Char)) (hws : ∀ w ∈ ws, NUL ∉ w) :
    NUL ∉ join_words ws := by
  induction ws with
  | nil => simp [join_words]
  | cons w ws ih =>
    cases ws with
    | nil => exact hws w (List.mem_cons_self _ _)
    | cons v ws =>
      rw [join_words]
      intro hmem
      rcases List.mem_append.1 hmem with h | h
      · exact hws w (List.mem_cons_self _ _) h
      · rcases List.mem_cons.1 h with h | h
        · exact absurd h (by decide)
        · exact ih (fun x hx => hws x (List.mem_cons_of_mem _ hx)) h

theorem fold_words_filter_even (ws : List (List Char)) (acc : Nat × List Char)
    (hodd : ∀ w ∈ ws, w.length % 2 = 1 → w.length ≤ 99) :
    fold_words (ws.filter (fun w => w.length % 2 = 0)) acc = fold_words ws acc := by
  induction ws generalizing acc with
  | nil => rfl
  | cons w ws ih =>
    have ih1 := fun a => ih a (fun x hx => hodd x (List.mem_cons_of_mem _ hx))
    by_cases hev : w.length % 2 = 0
    · rw [List.filter_cons_of_pos (by simpa using hev), fold_words, fold_words, ih1]
    · have hlen := hodd w (List.mem_cons_self _ _) (by omega)
      have hlt : w.length < WORD_SIZE := by simp only [WORD_SIZE]; omega
      have hk : keep_longer acc w = acc := by simp [keep_longer, hev]
      rw [List.filter_cons_of_neg (by simpa using hev), fold_words, if_pos hlt, hk, ih1]

theorem longest_even_word_congr (b1 b2 : List Char) (h : c_str b1 = c_str b2) :
    longest_even_word b1 = longest_even_word b2 := by
  rw [longest_even_word_eq, longest_even_word_eq, h]

theorem sentence_at_mem (b : List Char) (i : Nat) (h : i < strlen b) :
    sentence_at b i ∈ c_str b := by
  rw [sentence_at_drop b i (Nat.le_of_lt h)]
  cases hd : (c_str b).drop i with
  | nil =>
    have := congrArg List.length hd
    simp only [List.length_drop, List.length_nil, strlen] at this h
    omega
  | cons c r =>
    have : c ∈ (c_str b).drop i := by rw [hd]; exact List.mem_cons_self _ _
    exact List.mem_of_mem_drop this

theorem strip_newline_eq_self (b : List Char) (h : '\n' ∉ c_str b) : strip_newline b = b := by
  unfold strip_newline
  have hc : ¬ (0 < strlen b ∧ sentence_at b (strlen b - 1) = '\n') := by
    rintro ⟨hpos, he⟩
    have := sentence_at_mem b (strlen b - 1) (by omega)
    rw [he] at this
    exact h this
  simp only [if_neg hc]

theorem c_str_append_of_mem (s x : List Char) (h : NUL ∈ s) : c_str (s ++ x) = c_str s := by
  induction s with
  | nil => cases h
  | cons c cs ih =>
    by_cases hc : c = NUL
    · simp [c_str, hc]
    · have hcs : NUL ∈ cs := by
        rcases List.mem_cons.1 h with e | e
        · exact absurd e.symm hc
        · exact e
      have := ih hcs
      simp only [c_str] at this ⊢
      simp [List.takeWhile_cons, hc, this]

theorem c_str_append_NUL (s x : List Char) (h : NUL ∉ s) : c_str (s ++ NUL :: x) = s := by
  induction s with
  | nil => simp [c_str]
  | cons c cs ih =>
    have hc : c ≠ NUL := fun e => h (e ▸ List.mem_cons_self _ _)
    have := ih (fun e => h (List.mem_cons_of_mem _ e))
    simp only [c_str] at this ⊢
    simp [List.takeWhile_cons, hc, this]

theorem strip_newline_append (s : List Char) (h : NUL ∉ s) :
    strip_newline (s ++ ['\n']) = s ++ [NUL] := by
  have hn : NUL ∉ s ++ ['\n'] := by
    intro hm
    rcases List.mem_append.1 hm with e | e
    · exact h e
    · exact absurd (List.mem_singleton.1 e) (by decide)
  have hlen : strlen (s ++ ['\n']) = s.length + 1 := by
    simp [strlen, c_str_of_not_mem _ hn]
  have hat : sentence_at (s ++ ['\n']) s.length = '\n' := by
    simp [sentence_at]
  unfold strip_newline
  simp only [hlen, Nat.add_sub_cancel, hat, Nat.succ_pos, and_self, if_true]
  simp

/-- Inside the bound of `word[100]` (what holds of C1 where no write leaves the buffer):
when every word of the sentence held by the
buffer `s` has at most 99 characters, `longest_even_word s` is "none found" exactly when
no word has even length, and otherwise it is a word of the sentence, of even length, at
least as long as every even-length word of the sentence. -/
theorem longest_even_word_spec (s : List Char)
    (hb : ∀ w ∈ words (c_str s), w.length ≤ 99) :
    (longest_even_word s = Run.ok none ↔ ∀ w ∈ words (c_str s), w.length % 2 = 1) ∧
    (longest_even_word s ≠ Run.ok none →
      ∃ w, longest_even_word s = Run.ok (some w) ∧ w ∈ words (c_str s) ∧
        w.length % 2 = 0 ∧ ∀ v ∈ words (c_str s), v.length % 2 = 0 → v.length ≤ w.length) := by
  rw [scan_result_bounded s hb]
  rcases foldl_keep_longer_spec (words (c_str s)) 0 [] with
    ⟨he, hall⟩ | ⟨pre, post, hws, h1, h2, h3, h4, h5⟩
  · have hodd : ∀ w ∈ words (c_str s), w.length % 2 = 1 := by
      intro w hw
      by_contra hne
      have h0 : w.length ≤ 0 := hall w hw (by omega)
      exact words_ne_nil _ w hw (List.length_eq_zero.1 (by omega))
    rw [he]
    simp only [gt_iff_lt, Nat.lt_irrefl, if_false, ne_eq, not_true_eq_false, true_iff,
      false_imp_iff, and_true]
    exact hodd
  · generalize (words (c_str s)).foldl keep_longer (0, []) = res at *
    have hmem : res.2 ∈ words (c_str s) := by rw [hws]; simp
    have hpos : res.1 > 0 := by omega
    simp only [if_pos hpos]
    constructor
    · constructor
      · intro hc; cases hc
      · intro hodd; have := hodd _ hmem; omega
    · intro _
      refine ⟨res.2, rfl, hmem, h2, ?_⟩
      intro v hv hev
      rw [hws] at hv
      rcases List.mem_append.1 hv with hv | hv
      · exact Nat.le_of_lt (h4 v hv hev)
      · rcases List.mem_cons.1 hv with rfl | hv
        · exact Nat.le_refl _
        · exact h5 v hv hev

/-- Instances inside the bound: "cat dog elephant at" gives "elephant", "a bb ccc dddd ee" gives
"dddd". -/
theorem longest_even_word_spec_witness :
    longest_even_word "cat dog elephant at".toList = Run.ok (some "elephant".toList) ∧
    longest_even_word "a bb ccc dddd ee".toList = Run.ok (some "dddd".toList) ∧
    ((longest_even_word "cat dog elephant at".toList = Run.ok none ↔
        ∀ w ∈ words (c_str "cat dog elephant at".toList), w.length % 2 = 1) ∧
      (longest_even_word "cat dog elephant at".toList ≠ Run.ok none →
        ∃ w, longest_even_word "cat dog elephant at".toList = Run.ok (some w) ∧
          w ∈ words (c_str "cat dog elephant at".toList) ∧ w.length % 2 = 0 ∧
          ∀ v ∈ words (c_str "cat dog elephant at".toList),
            v.length % 2 = 0 → v.length ≤ w.length)) :=
  ⟨by decide, by decide, longest_even_word_spec "cat dog elephant at".toList (by decide)⟩

/-- C1 at the sentence of 100 letters, alone or as the line read by task1: the sentence
has a word of even length, the scan writes the terminator at `word[100]`, outside
`char word[100]` (line 31, the defect of C12), and the run is a fault that returns no
word. -/
theorem longest_even_word_overflow :
    (∃ w ∈ words (c_str (List.replicate 100 'a')), w.length % 2 = 0) ∧
    longest_even_word (List.replicate 100 'a') = Run.fault Fault.buffer_overflow ∧
    task1 (List.replicate 100 'a' ++ ['\n']) = Run.fault Fault.buffer_overflow ∧
    ¬ ∃ w, longest_even_word (List.replicate 100 'a') = Run.ok (some w) := by
  have h : longest_even_word (List.replicate 100 'a') = Run.fault Fault.buffer_overflow := by
    decide
  refine ⟨by decide, h, by decide, ?_⟩
  rintro ⟨w, hw⟩
  rw [h] at hw
  cases hw

/-- Inside the bound of `word[100]` (what holds of C6 where no write leaves the buffer):
when the sentence held by `s` has a word of even
length and all its words have at most 99 characters, `longest_even_word s` is a word `w` of
greatest even length, at a place of the sentence before which no word has the length of
`w`. -/
theorem longest_even_word_first (s : List Char)
    (hb : ∀ w ∈ words (c_str s), w.length ≤ 99)
    (heven : ∃ w ∈ words (c_str s), w.length % 2 = 0) :
    ∃ w pre post, longest_even_word s = Run.ok (some w) ∧
      words (c_str s) = pre ++ w :: post ∧ w.length % 2 = 0 ∧
      (∀ v ∈ words (c_str s), v.length % 2 = 0 → v.length ≤ w.length) ∧
      ∀ v ∈ pre, v.length ≠ w.length := by
  rw [scan_result_bounded s hb]
  rcases foldl_keep_longer_spec (words (c_str s)) 0 [] with
    ⟨-, hall⟩ | ⟨pre, post, hws, h1, h2, h3, h4, h5⟩
  · obtain ⟨w, hw, hev⟩ := heven
    have h0 : w.length ≤ 0 := hall w hw hev
    exact absurd (List.length_eq_zero.1 (by omega)) (words_ne_nil _ w hw)
  · generalize (words (c_str s)).foldl keep_longer (0, []) = res at *
    have hpos : res.1 > 0 := by omega
    refine ⟨res.2, pre, post, by simp only [if_pos hpos], hws, h2, ?_, ?_⟩
    · intro v hv hev
      rw [hws] at hv
      rcases List.mem_append.1 hv with hv | hv
      · exact Nat.le_of_lt (h4 v hv hev)
      · rcases List.mem_cons.1 hv with rfl | hv
        · exact Nat.le_refl _
        · exact h5 v hv hev
    · intro v hv he
      have := h4 v hv (by omega)
      omega

/-- Instance inside the bound: in "ab cd efgh ijkl mn" the first word of length 4 is
returned. -/
theorem longest_even_word_first_witness :
    longest_even_word "ab cd efgh ijkl mn".toList = Run.ok (some "efgh".toList) ∧
    ∃ w pre post, longest_even_word "ab cd efgh ijkl mn".toList = Run.ok (some w) ∧
      words (c_str "ab cd efgh ijkl mn".toList) = pre ++ w :: post ∧ w.length % 2 = 0 ∧
      (∀ v ∈ words (c_str "ab cd efgh ijkl mn".toList), v.length % 2 = 0 →
        v.length ≤ w.length) ∧
      ∀ v ∈ pre, v.length ≠ w.length :=
  ⟨by decide,
    longest_even_word_first "ab cd efgh ijkl mn".toList (by decide) (by decide)⟩

/-- C6 at "bb " followed by 100 letters, alone or as the line read by task1: the sentence
has words of even length, the second pass writes the terminator at `word[100]`, outside
`char word[100]` (line 31, the defect of C12), and the run is a fault that returns no
word. -/
theorem longest_even_word_first_overflow :
    (∃ w ∈ words (c_str ('b' :: 'b' :: ' ' :: List.replicate 100 'a')), w.length % 2 = 0) ∧
    longest_even_word ('b' :: 'b' :: ' ' :: List.replicate 100 'a') =
      Run.fault Fault.buffer_overflow ∧
    task1 ('b' :: 'b' :: ' ' :: List.replicate 100 'a' ++ ['\n']) =
      Run.fault Fault.buffer_overflow ∧
    ¬ ∃ w, longest_even_word ('b' :: 'b' :: ' ' :: List.replicate 100 'a') =
      Run.ok (some w) := by
  have h : longest_even_word ('b' :: 'b' :: ' ' :: List.replicate 100 'a') =
      Run.fault Fault.buffer_overflow := by
    decide
  refine ⟨by decide, h, by decide, ?_⟩
  rintro ⟨w, hw⟩
  rw [h] at hw
  cases hw

/-- C8: on a sentence that is empty or made of spaces and tabs only, `longest_even_word`
is "none found", and so is task1 from line 14 on. -/
theorem longest_even_word_blank (s : List Char)
    (h : ∀ c ∈ c_str s, c = ' ' ∨ c = '\t') :
    longest_even_word s = Run.ok none ∧ task1 s = Run.ok none := by
  have h1 : longest_even_word s = Run.ok none := by
    rw [longest_even_word_eq, words_all_delim _ h]
    rfl
  have h2 : strip_newline s = s := by
    apply strip_newline_eq_self
    intro hm
    rcases h _ hm with e | e <;> exact absurd e (by decide)
  exact ⟨h1, by rw [task1, h2, h1]⟩

/-- Instances of C8: the empty sentence and a sentence of blanks. -/
theorem longest_even_word_blank_witness :
    longest_even_word [] = Run.ok none ∧
    (longest_even_word [' ', '\t', ' ', ' '] = Run.ok none ∧
      task1 [' ', '\t', ' ', ' '] = Run.ok none) :=
  ⟨by decide, longest_even_word_blank [' ', '\t', ' ', ' '] (by decide)⟩

/-- Inside the bound of `word[100]` (what holds of C9 where no write leaves the buffer):
on a sentence made of one word `w` of at most
99 characters between blanks, `longest_even_word` is `w` when the length of `w` is even and
"none found" when it is odd. -/
theorem longest_even_word_single (pre w post : List Char)
    (hpre : ∀ c ∈ pre, c = ' ' ∨ c = '\t') (hpost : ∀ c ∈ post, c = ' ' ∨ c = '\t')
    (hw : w ≠ []) (hchars : ∀ c ∈ w, c ≠ ' ' ∧ c ≠ '\t' ∧ c ≠ NUL)
    (hlen : w.length ≤ 99) :
    longest_even_word (pre ++ w ++ post) =
      Run.ok (if w.length % 2 = 0 then some w else none) := by
  have hnul : NUL ∉ pre ++ w ++ post := by
    intro hm
    rcases List.mem_append.1 hm with hm | hm
    · rcases List.mem_append.1 hm with hm | hm
      · rcases hpre _ hm with e | e <;> exact absurd e (by decide)
      · exact (hchars _ hm).2.2 rfl
    · rcases hpost _ hm with e | e <;> exact absurd e (by decide)
  have hwords : words (c_str (pre ++ w ++ post)) = [w] := by
    rw [c_str_of_not_mem _ hnul, List.append_assoc, words_append_left pre _ hpre]
    exact words_word_append w post hw (fun c hc => ⟨(hchars c hc).1, (hchars c hc).2.1⟩) hpost
  have hb : ∀ v ∈ words (c_str (pre ++ w ++ post)), v.length ≤ 99 := by
    rw [hwords]; intro v hv; rw [List.mem_singleton.1 hv]; exact hlen
  have hpos : 0 < w.length := List.length_pos.2 hw
  rw [scan_result_bounded _ hb, hwords]
  by_cases hev : w.length % 2 = 0
  · simp [keep_longer, hev, hpos]
  · simp [keep_longer, hev]

/-- Instances inside the bound: a word of even length and a word of odd length between
blanks. -/
theorem longest_even_word_single_witness :
    longest_even_word (" \t".toList ++ "word".toList ++ "  ".toList) =
      Run.ok (if "word".toList.length % 2 = 0 then some "word".toList else none) ∧
    longest_even_word " \tword  ".toList = Run.ok (some "word".toList) ∧
    longest_even_word " odd ".toList = Run.ok none :=
  ⟨longest_even_word_single " \t".toList "word".toList "  ".toList
      (by decide) (by decide) (by decide) (by decide) (by decide),
    by decide, by decide⟩

/-- C9 at the single word of 100 letters, alone or as the line read by task1: its length
is even, the scan writes the terminator at `word[100]`, outside `char word[100]` (line 31,
the defect of C12), and the run is a fault, not the word. -/
theorem longest_even_word_single_overflow :
    (List.replicate 100 'x').length % 2 = 0 ∧
    longest_even_word ([] ++ List.replicate 100 'x' ++ []) = Run.fault Fault.buffer_overflow ∧
    task1 (List.replicate 100 'x' ++ ['\n']) = Run.fault Fault.buffer_overflow ∧
    longest_even_word ([] ++ List.replicate 100 'x' ++ []) ≠
      Run.ok (some (List.replicate 100 'x')) := by
  decide

/-- Inside the bound of `word[100]` (what holds of C7 where no odd-length word leaves the
buffer): for words `ws` (non-empty, without
space, tab or terminator) whose odd-length members have at most 99 characters,
`longest_even_word` of the words joined by single spaces equals `longest_even_word` of the
even-length words of `ws` joined by single spaces. -/
theorem longest_even_word_ignores_odd (ws : List (List Char))
    (hws : ∀ w ∈ ws, w ≠ [] ∧ ∀ c ∈ w, c ≠ ' ' ∧ c ≠ '\t' ∧ c ≠ NUL)
    (hodd : ∀ w ∈ ws, w.length % 2 = 1 → w.length ≤ 99) :
    longest_even_word (join_words ws) =
      longest_even_word (join_words (ws.filter (fun w => w.length % 2 = 0))) := by
  have key : ∀ vs : List (List Char),
      (∀ w ∈ vs, w ≠ [] ∧ ∀ c ∈ w, c ≠ ' ' ∧ c ≠ '\t' ∧ c ≠ NUL) →
      words (c_str (join_words vs)) = vs := by
    intro vs hvs
    rw [c_str_of_not_mem _ (not_mem_join_words vs (fun w hw hm => ((hvs w hw).2 _ hm).2.2 rfl))]
    exact words_join_words vs
      (fun w hw => ⟨(hvs w hw).1, fun c hc => ⟨((hvs w hw).2 c hc).1, ((hvs w hw).2 c hc).2.1⟩⟩)
  rw [longest_even_word_eq, longest_even_word_eq, key ws hws,
    key _ (fun w hw => hws w (List.mem_filter.1 hw).1), fold_words_filter_even ws _ hodd]

/-- Instance inside the bound: the odd-length words of "a bb ccc dddd ee" do not change
the result. -/
theorem longest_even_word_ignores_odd_witness :
    longest_even_word (join_words ["a".toList, "bb".toList, "ccc".toList, "dddd".toList,
      "ee".toList]) =
      longest_even_word (join_words (["a".toList, "bb".toList, "ccc".toList, "dddd".toList,
        "ee".toList].filter (fun w => w.length % 2 = 0))) ∧
    join_words ["a".toList, "bb".toList, "ccc".toList, "dddd".toList, "ee".toList] =
      "a bb ccc dddd ee".toList :=
  ⟨longest_even_word_ignores_odd _ (by decide) (by decide), by decide⟩

/-- C7 at the single odd-length word of 101 letters, alone or as the line read by task1:
with the word the copy of line 29 writes at `word[100]`, outside `char word[100]` (the
defect of C12), and the run is a fault; without it the sentence is empty and the result is
"none found". -/
theorem longest_even_word_odd_overflow :
    (List.replicate 101 'a').length % 2 = 1 ∧
    longest_even_word (join_words [List.replicate 101 'a']) =
      Run.fault Fault.buffer_overflow ∧
    task1 (join_words [List.replicate 101 'a'] ++ ['\n']) = Run.fault Fault.buffer_overflow ∧
    longest_even_word (join_words ([List.replicate 101 'a'].filter
      (fun w => w.length % 2 = 0))) = Run.ok none := by
  decide

/-- C10: for a sentence `s` without a newline, task1 (lines 14-43) on `s` followed by one
newline gives the result it gives on `s`, which is the result of the scan on `s`: the newline
is no character of the last word. -/
theorem task1_strips_newline (s : List Char) (h : '\n' ∉ s) :
    task1 (s ++ ['\n']) = task1 s ∧ task1 (s ++ ['\n']) = longest_even_word s := by
  have hsub : ∀ b : List Char, c_str b = c_str s → '\n' ∉ c_str b := by
    intro b hb hm
    rw [hb] at hm
    exact h ((List.takeWhile_sublist _).subset hm)
  have h1 : task1 s = longest_even_word s := by
    rw [task1, strip_newline_eq_self s (hsub s rfl)]
  have h2 : task1 (s ++ ['\n']) = longest_even_word s := by
    rw [task1]
    apply longest_even_word_congr
    by_cases hn : NUL ∈ s
    · have hc := c_str_append_of_mem s ['\n'] hn
      rw [strip_newline_eq_self _ (hsub _ hc), hc]
    · rw [strip_newline_append s hn, c_str_append_NUL s [] hn, c_str_of_not_mem s hn]
  exact ⟨h2.trans h1.symm, h2⟩

/-- Instance of C10: "ab cd" followed by a newline. -/
theorem task1_strips_newline_witness :
    (task1 ("ab cdef".toList ++ ['\n']) = task1 "ab cdef".toList ∧
      task1 ("ab cdef".toList ++ ['\n']) = longest_even_word "ab cdef".toList) ∧
    task1 "ab cdef\n".toList = Run.ok (some "cdef".toList) :=
  ⟨task1_strips_newline "ab cdef".toList (by decide), by decide⟩

/-! ## task3 digits, the menu, the rendering : proofs -/

theorem task3_digits (n : Int) (h1 : 1000 ≤ n) (h2 : n ≤ 9999) :
    (task3 n).digits = some (decompose n) := by
  have h : ¬ (n < 1000 ∨ n > 9999) := by omega
  simp only [task3, if_neg h]
  rcases hr : dup_loop_i (decompose n) 4 0 [] with ⟨_ | v, log⟩ <;> rfl

/-- C15: for `n` in `[1000, 9999]` the array `d` filled at lines 85-88 is the list of the
decimal digits of `n` from the thousands to the units: `1 <= d[0] <= 9`, `0 <= d[k] <= 9`
for `k = 1, 2, 3`, and `1000*d[0] + 100*d[1] + 10*d[2] + d[3] = n`. -/
theorem decompose_digits (n : Int) (h1 : 1000 ≤ n) (h2 : n ≤ 9999) :
    (task3 n).digits = some (decompose n) ∧
    decompose n = [n / 1000, n / 100 % 10, n / 10 % 10, n % 10] ∧
    decompose n = decimal_digits n ∧
    1 ≤ digit_at (decompose n) 0 ∧ digit_at (decompose n) 0 ≤ 9 ∧
    (∀ k, 1 ≤ k → k ≤ 3 → 0 ≤ digit_at (decompose n) k ∧ digit_at (decompose n) k ≤ 9) ∧
    1000 * digit_at (decompose n) 0 + 100 * digit_at (decompose n) 1 +
      10 * digit_at (decompose n) 2 + digit_at (decompose n) 3 = n := by
  refine ⟨task3_digits n h1 h2, ?_, decompose_eq_decimal_digits n h1 h2, ?_⟩
  · obtain ⟨m, rfl⟩ := Int.eq_ofNat_of_zero_le (by omega : 0 ≤ n)
    rw [decompose_nat]
    simp
  · obtain ⟨m, rfl⟩ := Int.eq_ofNat_of_zero_le (by omega : 0 ≤ n)
    rw [decompose_nat]
    simp only [digit_at, List.getD_cons_zero, List.getD_cons_succ]
    refine ⟨by omega, by omega, ?_, by omega⟩
    intro k hk1 hk3
    interval_cases k <;> simp only [List.getD_cons_zero, List.getD_cons_succ] <;> omega

/-- Instance of C15: the digits of 4096. -/
theorem decompose_digits_witness :
    decompose 4096 = [4, 0, 9, 6] ∧
    ((task3 4096).digits = some (decompose 4096) ∧
    decompose 4096 = [4096 / 1000, 4096 / 100 % 10, 4096 / 10 % 10, 4096 % 10] ∧
    decompose 4096 = decimal_digits 4096 ∧
    1 ≤ digit_at (decompose 4096) 0 ∧ digit_at (decompose 4096) 0 ≤ 9 ∧
    (∀ k, 1 ≤ k → k ≤ 3 →
      0 ≤ digit_at (decompose 4096) k ∧ digit_at (decompose 4096) k ≤ 9) ∧
    1000 * digit_at (decompose 4096) 0 + 100 * digit_at (decompose 4096) 1 +
      10 * digit_at (decompose 4096) 2 + digit_at (decompose 4096) 3 = 4096) :=
  ⟨by decide, decompose_digits 4096 (by decide) (by decide)⟩

/-- C17: main calls task1 exactly when `choice = 1`, task2 exactly when `choice = 2`, task3
exactly when `choice = 3`, and for every other value prints "Invalid choice!" and calls no
task; "Invalid choice!" is printed for no value among 1, 2, 3. -/
theorem main_dispatch (choice : Int) :
    (Event.call_task1 ∈ main choice ↔ choice = 1) ∧
    (Event.call_task2 ∈ main choice ↔ choice = 2) ∧
    (Event.call_task3 ∈ main choice ↔ choice = 3) ∧
    (Event.print "Invalid choice!\n" ∈ main choice ↔
      choice ≠ 1 ∧ choice ≠ 2 ∧ choice ≠ 3) ∧
    ((choice ≠ 1 ∧ choice ≠ 2 ∧ choice ≠ 3) →
      Event.call_task1 ∉ main choice ∧ Event.call_task2 ∉ main choice ∧
      Event.call_task3 ∉ main choice) := by
  by_cases h1 : choice = 1
  · subst h1; decide
  by_cases h2 : choice = 2
  · subst h2; decide
  by_cases h3 : choice = 3
  · subst h3; decide
  have hm : main choice = [Event.print "1. Longest Even-Length Word\n",
      Event.print "2. Matrix Multiplication\n", Event.print "3. Validate Unique Digits\n",
      Event.print "Enter choice (1-3): ", Event.print "Invalid choice!\n"] := by
    simp [main, h1, h2, h3]
  rw [hm]
  exact ⟨⟨fun h => absurd h (by decide), fun h => absurd h h1⟩,
    ⟨fun h => absurd h (by decide), fun h => absurd h h2⟩,
    ⟨fun h => absurd h (by decide), fun h => absurd h h3⟩,
    ⟨fun _ => ⟨h1, h2, h3⟩, fun _ => by decide⟩,
    fun _ => ⟨by decide, by decide, by decide⟩⟩

/-- C16: the text printed for a matrix `C` has, for each of the two rows, the four values
separated by single spaces, then " | " between the rows and one newline at the end, with
no separator after the last value or the last row; task2 prints the header and
"38 44 50 56 | 83 98 113 128" with its newline. -/
theorem render_format (C : List (List Int)) :
    render C =
      print_int (mat_at C 0 0) ++ [' '] ++ print_int (mat_at C 0 1) ++ [' '] ++
        print_int (mat_at C 0 2) ++ [' '] ++ print_int (mat_at C 0 3) ++ " | ".toList ++
      print_int (mat_at C 1 0) ++ [' '] ++ print_int (mat_at C 1 1) ++ [' '] ++
        print_int (mat_at C 1 2) ++ [' '] ++ print_int (mat_at C 1 3) ++ ['\n'] ∧
    task2 = Run.ok ("Resulting 2x4 matrix:\n".toList ++
      "38 44 50 56 | 83 98 113 128\n".toList) := by
  refine ⟨?_, by decide⟩
  simp [render, print_loop_i, print_loop_j]

/-! ## task2 : the product of any two matrices -/

theorem mat_set_length (C : List (List Int)) (i j : Nat) (v : Int) :
    (mat_set C i j v).length = C.length := by
  simp [mat_set]

theorem mat_set_row_length (C : List (List Int)) (i j k : Nat) (v : Int) :
    ((mat_set C i j v).getD k []).length = (C.getD k []).length := by
  unfold mat_set
  by_cases hk : k = i
  · subst hk
    by_cases hl : k < C.length
    · simp [List.getD_eq_getElem?_getD, List.getElem?_set, hl]
    · have hn : C[k]? = none := List.getElem?_eq_none (Nat.le_of_not_lt hl)
      simp [List.getD_eq_getElem?_getD, List.getElem?_set, hl, hn]
  · have : i ≠ k := fun e => hk e.symm
    simp [List.getD_eq_getElem?_getD, List.getElem?_set, this]

theorem mat_at_set_eq (C : List (List Int)) (i j : Nat) (v : Int) (hi : i < C.length)
    (hj : j < (C.getD i []).length) : mat_at (mat_set C i j v) i j = v := by
  unfold mat_at mat_set
  simp [List.getD_eq_getElem?_getD, List.getElem?_set, hi] at hj ⊢
  simp [hj]

theorem mat_set_set (C : List (List Int)) (i j : Nat) (v w : Int) :
    mat_set (mat_set C i j v) i j w = mat_set C i j w := by
  unfold mat_set
  by_cases hl : i < C.length
  · simp [List.getD_eq_getElem?_getD, List.getElem?_set, hl]
  · have : C.length ≤ i := Nat.le_of_not_lt hl
    simp [List.set_eq_of_length_le, this]

theorem int_result_ok (x : Int) (h : in_int x) : int_result x = Run.ok x := by
  simp only [int_result]
  exact if_pos h

theorem loop_k_cell (A B C : List (List Int)) (i j : Nat) (hi : i < C.length)
    (hj : j < (C.getD i []).length) (h : no_overflow A B i j) :
    loop_k A B i j 3 0 (mat_set C i j 0) =
      Run.ok (mat_set C i j (mat_at A i 0 * mat_at B 0 j + mat_at A i 1 * mat_at B 1 j +
        mat_at A i 2 * mat_at B 2 j)) := by
  obtain ⟨h0, h1, h2, h01, h012⟩ := h
  simp only [loop_k, Nat.zero_add, Nat.reduceAdd]
  rw [int_result_ok _ h0]
  simp only [mat_at_set_eq C i j 0 hi hj, Int.zero_add]
  rw [int_result_ok _ h0]
  simp only [mat_set_set]
  rw [int_result_ok _ h1]
  simp only [mat_at_set_eq C i j _ hi hj]
  rw [int_result_ok _ h01]
  simp only [mat_set_set]
  rw [int_result_ok _ h2]
  simp only [mat_at_set_eq C i j _ hi hj]
  rw [int_result_ok _ h012]

theorem loop_j_row (A B C : List (List Int)) (i : Nat) (hi : i < C.length)
    (hrow : (C.getD i []).length = 4) (h : ∀ j, j < 4 → no_overflow A B i j) :
    loop_j A B i 4 0 C =
      Run.ok (mat_set (mat_set (mat_set (mat_set C i 0
        (mat_at A i 0 * mat_at B 0 0 + mat_at A i 1 * mat_at B 1 0 +
          mat_at A i 2 * mat_at B 2 0)) i 1
        (mat_at A i 0 * mat_at B 0 1 + mat_at A i 1 * mat_at B 1 1 +
          mat_at A i 2 * mat_at B 2 1)) i 2
        (mat_at A i 0 * mat_at B 0 2 + mat_at A i 1 * mat_at B 1 2 +
          mat_at A i 2 * mat_at B 2 2)) i 3
        (mat_at A i 0 * mat_at B 0 3 + mat_at A i 1 * mat_at B 1 3 +
          mat_at A i 2 * mat_at B 2 3)) := by
  simp only [loop_j, Nat.zero_add, Nat.reduceAdd]
  rw [loop_k_cell A B C i 0 hi (by omega) (h 0 (by omega))]
  simp only []
  rw [loop_k_cell A B _ i 1 (by rw [mat_set_length]; exact hi)
    (by rw [mat_set_row_length]; omega) (h 1 (by omega))]
  simp only []
  rw [loop_k_cell A B _ i 2 (by simp only [mat_set_length]; exact hi)
    (by simp only [mat_set_row_length]; omega) (h 2 (by omega))]
  simp only []
  rw [loop_k_cell A B _ i 3 (by simp only [mat_set_length]; exact hi)
    (by simp only [mat_set_row_length]; omega) (h 3 (by omega))]

theorem multiply_into_eq (A B : List (List Int)) (x0 x1 x2 x3 y0 y1 y2 y3 : Int)
    (h : ∀ i j, i < 2 → j < 4 → no_overflow A B i j) :
    multiply_into [[x0, x1, x2, x3], [y0, y1, y2, y3]] A B =
      Run.ok [[mat_at A 0 0 * mat_at B 0 0 + mat_at A 0 1 * mat_at B 1 0 +
            mat_at A 0 2 * mat_at B 2 0,
          mat_at A 0 0 * mat_at B 0 1 + mat_at A 0 1 * mat_at B 1 1 +
            mat_at A 0 2 * mat_at B 2 1,
          mat_at A 0 0 * mat_at B 0 2 + mat_at A 0 1 * mat_at B 1 2 +
            mat_at A 0 2 * mat_at B 2 2,
          mat_at A 0 0 * mat_at B 0 3 + mat_at A 0 1 * mat_at B 1 3 +
            mat_at A 0 2 * mat_at B 2 3],
        [mat_at A 1 0 * mat_at B 0 0 + mat_at A 1 1 * mat_at B 1 0 +
            mat_at A 1 2 * mat_at B 2 0,
          mat_at A 1 0 * mat_at B 0 1 + mat_at A 1 1 * mat_at B 1 1 +
            mat_at A 1 2 * mat_at B 2 1,
          mat_at A 1 0 * mat_at B 0 2 + mat_at A 1 1 * mat_at B 1 2 +
            mat_at A 1 2 * mat_at B 2 2,
          mat_at A 1 0 * mat_at B 0 3 + mat_at A 1 1 * mat_at B 1 3 +
            mat_at A 1 2 * mat_at B 2 3]] := by
  simp only [multiply_into, loop_i, Nat.zero_add]
  rw [loop_j_row A B _ 0 (by simp) (by simp) (fun j hj => h 0 j (by omega) hj)]
  simp only []
  rw [loop_j_row A B _ 1 (by simp [mat_set_length])
    (by simp only [mat_set_row_length]; simp) (fun j hj => h 1 j (by omega) hj)]
  rfl

/-- C11: when no product and no partial sum leaves the range of `int`, the triple loop of
multiply ends with a 2x4 matrix `c` such that
`c[i][j] = a[i][0]*b[0][j] + a[i][1]*b[1][j] + a[i][2]*b[2][j]` for `i` in 0..1 and `j` in
0..3, whatever the array `C` holds before the loop. -/
theorem multiply_cells (a b : List (List Int))
    (h : ∀ i, i < 2 → ∀ j, j < 4 → no_overflow a b i j) :
    ∃ c, multiply a b = Run.ok c ∧ c.length = 2 ∧
      (∀ i, i < 2 → (c.getD i []).length = 4) ∧
      (∀ i j, i < 2 → j < 4 →
        mat_at c i j = mat_at a i 0 * mat_at b 0 j + mat_at a i 1 * mat_at b 1 j +
          mat_at a i 2 * mat_at b 2 j) ∧
      ∀ x0 x1 x2 x3 y0 y1 y2 y3 : Int,
        multiply_into [[x0, x1, x2, x3], [y0, y1, y2, y3]] a b = Run.ok c := by
  have h1 : ∀ i j, i < 2 → j < 4 → no_overflow a b i j := fun i j hi hj => h i hi j hj
  refine ⟨_, multiply_into_eq a b 0 0 0 0 0 0 0 0 h1, rfl, ?_, ?_, ?_⟩
  · intro i hi
    interval_cases i <;> rfl
  · intro i j hi hj
    interval_cases i <;> interval_cases j <;> rfl
  · intro x0 x1 x2 x3 y0 y1 y2 y3
    exact multiply_into_eq a b x0 x1 x2 x3 y0 y1 y2 y3 h1

/-- Instance of C11: the matrices of task2, and a product with negative entries. -/
theorem multiply_cells_witness :
    multiply [[-1, 2, 0], [3, -4, 5]] [[1, 0, 2, -3], [0, 1, 1, 1], [7, 7, -7, 0]] =
      Run.ok [[-1, 2, 0, 5], [38, 31, -33, -13]] ∧
    ∃ c, multiply task2_A task2_B = Run.ok c ∧ c.length = 2 ∧
      (∀ i, i < 2 → (c.getD i []).length = 4) ∧
      (∀ i j, i < 2 → j < 4 →
        mat_at c i j = mat_at task2_A i 0 * mat_at task2_B 0 j +
          mat_at task2_A i 1 * mat_at task2_B 1 j + mat_at task2_A i 2 * mat_at task2_B 2 j) ∧
      ∀ x0 x1 x2 x3 y0 y1 y2 y3 : Int,
        multiply_into [[x0, x1, x2, x3], [y0, y1, y2, y3]] task2_A task2_B = Run.ok c :=
  ⟨by decide, multiply_cells task2_A task2_B (by decide)⟩


/-! ## task1 : the states of the scan -/

theorem splitOnP_append_cons_delim (x : List Char) (d : Char) (y : List Char)
    (hd : is_delim d = true) :
    (x ++ d :: y).splitOnP is_delim = x.splitOnP is_delim ++ y.splitOnP is_delim := by
  induction x with
  | nil => simp [List.splitOnP_cons, hd]
  | cons c cs ih =>
    rw [List.cons_append, List.splitOnP_cons, List.splitOnP_cons, ih]
    by_cases hc : is_delim c = true
    · simp [hc]
    · simp only [hc, if_false]
      cases hs : cs.splitOnP is_delim with
      | nil => exact absurd hs (List.splitOnP_ne_nil _ _)
      | cons a l => rfl

theorem words_append_cons_delim (x : List Char) (d : Char) (y : List Char)
    (hd : is_delim d = true) : words (x ++ d :: y) = words x ++ words y := by
  unfold words
  rw [splitOnP_append_cons_delim x d y hd, List.filter_append]

theorem scan_after_succ (b : List Char) (k : Nat) (st : ScanState)
    (h : scan_after b (k + 1) = Run.ok (some st)) :
    ∃ st0, scan_after b k = Run.ok (some st0) ∧ scan_step b st0 = Run.ok (some st) := by
  rw [scan_after] at h
  rcases hk : scan_after b k with (_ | st0) | f
  · rw [hk] at h; cases h
  · rw [hk] at h; exact ⟨st0, rfl, h⟩
  · rw [hk] at h; cases h

theorem scan_step_some (b : List Char) (st st1 : ScanState) (r : List Char)
    (h : Cursor b st.i r) (hs : scan_step b st = Run.ok (some st1)) :
    r.dropWhile is_delim ≠ [] ∧
    ((r.dropWhile is_delim).takeWhile (fun x => !is_delim x)).length < WORD_SIZE ∧
    st1 = { i := st.i + (r.takeWhile is_delim).length +
              ((r.dropWhile is_delim).takeWhile (fun x => !is_delim x)).length
            max_len := (keep_longer (st.max_len, st.longest)
              ((r.dropWhile is_delim).takeWhile (fun x => !is_delim x))).1
            longest := (keep_longer (st.max_len, st.longest)
              ((r.dropWhile is_delim).takeWhile (fun x => !is_delim x))).2 } := by
  rw [scan_step_eq b st r h] at hs
  by_cases h1 : r.dropWhile is_delim = []
  · rw [if_pos h1] at hs; cases hs
  · rw [if_neg h1] at hs
    by_cases h2 : ((r.dropWhile is_delim).takeWhile (fun x => !is_delim x)).length < WORD_SIZE
    · rw [if_pos h2] at hs
      injection hs with hs
      injection hs with hs
      exact ⟨h1, h2, hs.symm⟩
    · rw [if_neg h2] at hs; cases hs

theorem word_after_delims (r : List Char) (h : r.dropWhile is_delim ≠ []) :
    0 < ((r.dropWhile is_delim).takeWhile (fun x => !is_delim x)).length := by
  cases hr : r.dropWhile is_delim with
  | nil => exact absurd hr h
  | cons c r2 =>
    have := List.head_dropWhile_not is_delim r (by rw [hr]; simp)
    have hc : is_delim c = false := by simpa [hr] using this
    simp [List.takeWhile_cons, hc]

theorem cursor_after_word (b : List Char) (i : Nat) (r : List Char) (h : Cursor b i r) :
    Cursor b (i + (r.takeWhile is_delim).length +
        ((r.dropWhile is_delim).takeWhile (fun x => !is_delim x)).length)
      ((r.dropWhile is_delim).dropWhile (fun x => !is_delim x)) := by
  have h1 : Cursor b (i + (r.takeWhile is_delim).length) (r.dropWhile is_delim) :=
    cursor_advance _ _ (by rw [List.takeWhile_append_dropWhile]; exact h)
  exact cursor_advance _ _ (by rw [List.takeWhile_append_dropWhile]; exact h1)

theorem words_delims_word (ds w : List Char) (hds : ∀ c ∈ ds, is_delim c = true)
    (hw : w ≠ []) (hnd : ∀ c ∈ w, is_delim c = false) : words (ds ++ w) = [w] := by
  rw [words_append_left ds w (fun c hc => (is_delim_iff c).1 (hds c hc))]
  exact words_single w hw hnd

theorem words_prefix_word (p r : List Char)
    (hp : p = [] ∨ ∀ c r2, r = c :: r2 → is_delim c = true)
    (h1 : r.dropWhile is_delim ≠ []) :
    words (p ++ r.takeWhile is_delim ++
        (r.dropWhile is_delim).takeWhile (fun x => !is_delim x)) =
      words p ++ [(r.dropWhile is_delim).takeWhile (fun x => !is_delim x)] := by
  have hw := word_after_delims r h1
  have hds : ∀ c ∈ r.takeWhile is_delim, is_delim c = true :=
    fun c hc => List.mem_takeWhile_imp hc
  have hnd : ∀ c ∈ (r.dropWhile is_delim).takeWhile (fun x => !is_delim x),
      is_delim c = false := by
    intro c hc
    have := List.mem_takeWhile_imp hc
    simpa using this
  generalize (r.dropWhile is_delim).takeWhile (fun x => !is_delim x) = w at hw hnd ⊢
  have hwne : w ≠ [] := List.length_pos.1 hw
  rcases hp with hp | hp
  · subst hp
    rw [List.nil_append, words_delims_word _ w hds hwne hnd, words_nil, List.nil_append]
  · cases r with
    | nil => exact absurd rfl h1
    | cons c r2 =>
      have hc : is_delim c = true := hp c r2 rfl
      rw [List.takeWhile_cons_of_pos hc] at hds ⊢
      rw [List.append_assoc, List.cons_append, words_append_cons_delim p c _ hc,
        words_delims_word _ w (fun x hx => hds x (List.mem_cons_of_mem _ hx)) hwne hnd]

theorem take_prefix_word (t : List Char) (i : Nat) (ds w r3 : List Char)
    (h : t.drop i = ds ++ w ++ r3) :
    t.take (i + ds.length + w.length) = t.take i ++ ds ++ w := by
  rw [Nat.add_assoc, List.take_add, h, List.append_assoc (t.take i)]
  congr 1
  exact List.take_left' (by rw [List.length_append])

theorem scan_after_inv (b : List Char) (k : Nat) (st : ScanState)
    (h : scan_after b k = Run.ok (some st)) :
    st.i ≤ strlen b ∧ k ≤ st.i ∧
    (st.i = 0 ∨ ∀ c r, (c_str b).drop st.i = c :: r → is_delim c = true) ∧
    (st.max_len, st.longest) =
      (words ((c_str b).take st.i)).foldl keep_longer (0, []) := by
  induction k generalizing st with
  | zero =>
    rw [scan_after] at h
    injection h with h
    injection h with h
    subst h
    simp [scan_init, words_nil]
  | succ k ih =>
    obtain ⟨st0, h0, hstep⟩ := scan_after_succ b k st h
    obtain ⟨hi0, hk0, hb0, hf0⟩ := ih st0 h0
    have hcur : Cursor b st0.i ((c_str b).drop st0.i) := ⟨hi0, rfl⟩
    obtain ⟨h1, -, hst⟩ := scan_step_some b st0 st _ hcur hstep
    have hcur3 := cursor_after_word b st0.i _ hcur
    have hw := word_after_delims _ h1
    have hpre := words_prefix_word ((c_str b).take st0.i) ((c_str b).drop st0.i)
      (by
        rcases hb0 with e | e
        · left; rw [e]; rfl
        · right; exact e) h1
    have htake := take_prefix_word (c_str b) st0.i
      (((c_str b).drop st0.i).takeWhile is_delim)
      ((((c_str b).drop st0.i).dropWhile is_delim).takeWhile (fun x => !is_delim x))
      ((((c_str b).drop st0.i).dropWhile is_delim).dropWhile (fun x => !is_delim x))
      (by rw [List.append_assoc, List.takeWhile_append_dropWhile,
        List.takeWhile_append_dropWhile])
    subst hst
    refine ⟨hcur3.1, by simp only; omega, ?_, ?_⟩
    · right
      intro c r2 hr
      simp only at hr
      rw [← hcur3.2] at hr
      have := List.head_dropWhile_not (fun x => !is_delim x)
        (((c_str b).drop st0.i).dropWhile is_delim) (by rw [hr]; simp)
      simpa [hr] using this
    · simp only
      rw [htake, hpre, List.foldl_append, ← hf0]
      rfl

theorem scan_loop_scan_after (b : List Char) (k fuel : Nat) (st : ScanState)
    (h : scan_after b k = Run.ok (some st)) :
    scan_loop (k + fuel) b scan_init = scan_loop fuel b st := by
  induction k generalizing st fuel with
  | zero =>
    rw [scan_after] at h
    injection h with h
    injection h with h
    rw [h, Nat.zero_add]
  | succ k ih =>
    obtain ⟨st0, h0, hstep⟩ := scan_after_succ b k st h
    rw [Nat.add_right_comm, Nat.add_assoc, ih (fuel + 1) st0 h0, scan_loop, hstep]

/-- C14: in every state at the head of the outer loop of task1 (after any number of
passes), the length of `longest` is `max_len`, `max_len` is even, `max_len` is at least
the length of every even-length word of the part of the sentence before `i`, and
`max_len = 0` (`longest` empty) exactly when that part has no word of even length. -/
theorem longest_invariant (s : List Char) (k : Nat) (st : ScanState)
    (h : scan_after s k = Run.ok (some st)) :
    st.longest.length = st.max_len ∧ st.max_len % 2 = 0 ∧
    (∀ w ∈ words ((c_str s).take st.i), w.length % 2 = 0 → w.length ≤ st.max_len) ∧
    (st.max_len = 0 ↔ ∀ w ∈ words ((c_str s).take st.i), w.length % 2 = 1) ∧
    (st.max_len = 0 ↔ st.longest = []) := by
  obtain ⟨-, -, -, hf⟩ := scan_after_inv s k st h
  have hm : st.max_len = ((words ((c_str s).take st.i)).foldl keep_longer (0, [])).1 :=
    congrArg Prod.fst hf
  have hl : st.longest = ((words ((c_str s).take st.i)).foldl keep_longer (0, [])).2 :=
    congrArg Prod.snd hf
  rcases foldl_keep_longer_spec (words ((c_str s).take st.i)) 0 [] with
    ⟨he, hall⟩ | ⟨pre, post, hws, h1, h2, h3, h4, h5⟩
  · rw [he] at hm hl
    simp only at hm hl
    have hodd : ∀ w ∈ words ((c_str s).take st.i), w.length % 2 = 1 := by
      intro w hw
      by_contra hne
      have h0 : w.length ≤ 0 := hall w hw (by omega)
      exact words_ne_nil _ w hw (List.length_eq_zero.1 (by omega))
    rw [hm, hl]
    refine ⟨rfl, rfl, ?_, ?_, ?_⟩
    · intro w hw hev
      have := hodd w hw
      omega
    · exact ⟨fun _ => hodd, fun _ => rfl⟩
    · exact ⟨fun _ => rfl, fun _ => rfl⟩
  · generalize (words ((c_str s).take st.i)).foldl keep_longer (0, []) = res at *
    have hmem : res.2 ∈ words ((c_str s).take st.i) := by rw [hws]; simp
    rw [hm, hl]
    refine ⟨h1.symm, by omega, ?_, ?_, ?_⟩
    · intro v hv hev
      rw [hws] at hv
      rcases List.mem_append.1 hv with hv | hv
      · have := h4 v hv hev; omega
      · rcases List.mem_cons.1 hv with rfl | hv
        · omega
        · have := h5 v hv hev; omega
    · constructor
      · intro h0; omega
      · intro hodd; have := hodd _ hmem; omega
    · constructor
      · intro h0; omega
      · intro he; rw [he] at h3; simp at h3

/-- Instance of C14: "ab cdef g" after two passes, `i = 7`, `max_len = 4`, `longest` is
"cdef". -/
theorem longest_invariant_witness :
    scan_after "ab cdef g".toList 2 =
      Run.ok (some { i := 7, max_len := 4, longest := "cdef".toList }) ∧
    ("cdef".toList.length = 4 ∧ 4 % 2 = 0 ∧
    (∀ w ∈ words ((c_str "ab cdef g".toList).take 7), w.length % 2 = 0 → w.length ≤ 4) ∧
    (4 = 0 ↔ ∀ w ∈ words ((c_str "ab cdef g".toList).take 7), w.length % 2 = 1) ∧
    (4 = 0 ↔ "cdef".toList = [])) :=
  ⟨by decide,
    longest_invariant "ab cdef g".toList 2 { i := 7, max_len := 4, longest := "cdef".toList }
      (by decide)⟩

/-- Evaluation for C12: the sentence of 100 letters has at most 999 characters, the word
collected has `j = 100` characters, and the pass writes the terminator at `word[100]`; with
101 letters the copy itself writes at `word[100]`. -/
theorem word_index_out_of_bounds :
    (List.replicate 100 'a').length ≤ 999 ∧
    collect_word 101 (List.replicate 100 'a') 0 0 [] =
      Run.ok (100, 100, List.replicate 100 'a') ∧
    scan_step (List.replicate 100 'a') scan_init = Run.fault Fault.buffer_overflow ∧
    task1 (List.replicate 100 'a' ++ ['\n']) = Run.fault Fault.buffer_overflow ∧
    collect_word 102 (List.replicate 101 'a') 0 0 [] = Run.fault Fault.buffer_overflow := by
  decide

theorem native_fold_eq (ws : List (List Char)) (m : Nat) (l : List Char)
    (acc : Option (List Char))
    (hrel : (m = 0 ∧ acc = none) ∨ (0 < m ∧ m = l.length ∧ acc = some l)) :
    (if (ws.foldl keep_longer (m, l)).1 > 0 then some (ws.foldl keep_longer (m, l)).2
      else none) =
      ws.foldl (fun acc w =>
        if w.length % 2 = 0 ∧ w.length > acc_length acc then some w else acc) acc := by
  induction ws generalizing m l acc with
  | nil =>
    rcases hrel with ⟨hm, ha⟩ | ⟨hm, -, ha⟩
    · simp [hm, ha]
    · simp [hm, ha]
  | cons w ws ih =>
    have hlen : acc_length acc = m := by
      rcases hrel with ⟨hm, ha⟩ | ⟨-, hm, ha⟩
      · rw [ha, hm]; rfl
      · rw [ha, hm]; rfl
    rw [List.foldl_cons, List.foldl_cons, hlen]
    by_cases hk : w.length % 2 = 0 ∧ w.length > m
    · have hkl : keep_longer (m, l) w = (w.length, w) := by simp [keep_longer, hk]
      rw [hkl, if_pos hk]
      exact ih w.length w (some w) (Or.inr ⟨by omega, rfl, rfl⟩)
    · have hkl : keep_longer (m, l) w = (m, l) := by simp [keep_longer, hk]
      rw [hkl, if_neg hk]
      exact ih m l acc hrel

/-- C13: for a sentence whose words have at most 99 characters, the scan with indices
gives the result of the native fold: split on space and tab, drop the empty pieces, fold
from `none` replacing the accumulator by a word only when its length is even and strictly
greater.  Every character other than space, tab and the terminator is a character of a
word: two of them make a word of length 2, which is returned. -/
theorem scan_refines_native_fold (s : List Char)
    (hb : ∀ w ∈ words (c_str s), w.length ≤ 99) :
    longest_even_word s = Run.ok (native_longest_even_word (c_str s)) ∧
    (∀ c : Char, c ≠ ' ' → c ≠ '\t' → c ≠ NUL →
      longest_even_word [c, c] = Run.ok (some [c, c])) := by
  constructor
  · rw [scan_result_bounded s hb]
    have hn := native_fold_eq (words (c_str s)) 0 [] none (Or.inl ⟨rfl, rfl⟩)
    have hdef : native_longest_even_word (c_str s) =
        (words (c_str s)).foldl (fun acc w =>
          if w.length % 2 = 0 ∧ w.length > acc_length acc then some w else acc) none := rfl
    rw [hdef, ← hn]
    split_ifs <;> rfl
  · intro c h1 h2 h3
    have hnul : NUL ∉ [c, c] := by
      intro hm
      simp only [List.mem_cons, List.mem_singleton, List.not_mem_nil, or_false, or_self] at hm
      exact h3 hm.symm
    have hnd : ∀ x ∈ [c, c], is_delim x = false := by
      intro x hx
      simp only [List.mem_cons, List.mem_singleton, List.not_mem_nil, or_false, or_self] at hx
      rw [hx]
      exact not_delim_of_ne c ⟨h1, h2⟩
    have hwords : words (c_str [c, c]) = [[c, c]] := by
      rw [c_str_of_not_mem _ hnul]
      exact words_single [c, c] (List.cons_ne_nil _ _) hnd
    have hbc : ∀ w ∈ words (c_str [c, c]), w.length ≤ 99 := by
      rw [hwords]; intro w hw; rw [List.mem_singleton.1 hw]
      simp only [List.length_cons, List.length_nil]; omega
    rw [scan_result_bounded _ hbc, hwords]
    simp [keep_longer]

/-- Instance of C13: in "abc\r de" the carriage return is the fourth character of the
first word. -/
theorem scan_refines_native_fold_witness :
    longest_even_word "abc\r de".toList = Run.ok (some "abc\r".toList) ∧
    native_longest_even_word "abc\r de".toList = some "abc\r".toList ∧
    (longest_even_word "abc\r de".toList =
        Run.ok (native_longest_even_word (c_str "abc\r de".toList)) ∧
      (∀ c : Char, c ≠ ' ' → c ≠ '\t' → c ≠ NUL →
        longest_even_word [c, c] = Run.ok (some [c, c]))) :=
  ⟨by decide, by decide, scan_refines_native_fold "abc\r de".toList (by decide)⟩

/-! ## task1 : the indices of the scan -/

end CProblems
